import Mathlib

/-!
Verification of the steel-heat validation pipeline

Shallow embedding of `src/lib/validator.ts` (`parseTimeWithDate`,
`validateAndTransform`) of the Steel Gantt Vision repository, together with the
per-caster sequencing step that the spec describes (§4.6) but whose computing
code is not present in the frontend sources.

Modelling conventions:
* JS `Date` values are modelled as minutes on an idealized local timeline with
  no DST: a timestamp is `1440 * day + 60 * hours + minutes` where `day` is a
  civil day number (days since 1970-01-01, Rata-Die style).  `new Date(y,m,d,H,M)`
  normalizes field overflow exactly like this linear arithmetic does.
* An *invalid* JS `Date` (`isNaN(d.getTime())`) is modelled as `Option.none`.
* Date strings are parsed in the canonical `YYYY-MM-DD` form that the row
  parser (`excel-parser.ts`) emits; all other non-empty strings are modelled as
  producing an invalid date.
* `new Date()` ("today") is modelled by an explicit `today : Int` day parameter.
* The thrown `TypeError` of `validateAndTransform` (setting a property on
  `ops[0]` when `ops` is empty) is modelled by `Except` with error `JsError.typeError`.
* Error `message` strings (Vietnamese UI text) are not modelled; the error
  records keep `heat_id`, `kind`, `unit?`, `opIndex?`.
-/

namespace Steel

/-- ASCII upper-casing of one character (the effect of JS `toUpperCase` on the
unit codes this table ever sees). -/
def ascUpper (c : Char) : Char :=
  if 97 ≤ c.toNat ∧ c.toNat ≤ 122 then Char.ofNat (c.toNat - 32) else c

/-- JS `s.toUpperCase()` on ASCII strings, implemented over the character list
so that it evaluates inside the kernel. -/
def jsToUpper (s : String) : String :=
  String.mk (s.data.map ascUpper)

/-- Splitting a character list at a separator (the JS
`String.prototype.split` with a one-character separator). -/
def splitChAux (sep : Char) : List Char → List Char → List String
  | [], acc => [String.mk acc.reverse]
  | c :: cs, acc =>
      if c = sep then String.mk acc.reverse :: splitChAux sep cs []
      else splitChAux sep cs (c :: acc)

/-- JS `s.split(sep)` for a one-character separator. -/
def splitCh (sep : Char) (s : String) : List String :=
  splitChAux sep s.data []

/-- ASCII decimal digit test. -/
def isDig (c : Char) : Bool :=
  decide (48 ≤ c.toNat ∧ c.toNat ≤ 57)

/-- JS `Number(s)` restricted to the fragment the validator feeds it
(`hhmm.split(':')` parts): the empty string is `0`, a non-empty digit string is
its value, anything else is `NaN` (modelled as `none`). -/
def jsNumber (s : String) : Option Nat :=
  if s = "" then some 0
  else if s.data.all isDig then
    some (s.data.foldl (fun n c => 10 * n + (c.toNat - 48)) 0)
  else none

/-- Model of `hhmm.split(':')` followed by `const [hours, minutes] = …` and the
`isNaN` checks of `parseTimeWithDate`. A string without a `:` has
`minutes = Number(undefined) = NaN`. -/
def parseHHMM (s : String) : Option (Nat × Nat) :=
  match splitCh ':' s with
  | [] => none
  | [_] => none
  | h :: m :: _ => do
      let hv ← jsNumber h
      let mv ← jsNumber m
      pure (hv, mv)

/-- Civil day number (days since 1970-01-01) of the Gregorian date `y-m-d`
(Howard Hinnant's `days_from_civil`). -/
def daysFromCivil (y m d : Int) : Int :=
  let y2 : Int := if m ≤ 2 then y - 1 else y
  let era : Int := Int.fdiv y2 400
  let yoe : Int := y2 - era * 400
  let mp : Int := Int.fmod (m + 9) 12
  let doy : Int := Int.fdiv (153 * mp + 2) 5 + d - 1
  let doe : Int := yoe * 365 + Int.fdiv yoe 4 - Int.fdiv yoe 100 + doy
  era * 146097 + doe - 719468

/-- Parses a non-empty all-digit string (the date components of a canonical
`YYYY-MM-DD` string). -/
def digits? (s : String) : Option Nat :=
  if s.data ≠ [] ∧ s.data.all isDig then
    some (s.data.foldl (fun n c => 10 * n + (c.toNat - 48)) 0)
  else none

/-- Comma-joining of a string list (JS `Array.prototype.join(',')`). -/
def joinComma : List String → String
  | [] => ""
  | x :: xs => xs.foldl (fun acc y => acc ++ "," ++ y) x

/-- JS `new Date(dateStr)` on the canonical `YYYY-MM-DD` strings produced by the
row parser: `none` models an Invalid Date. Month and day-of-month are
range-checked (the ISO parser rejects e.g. month 13). -/
def jsParseDate (s : String) : Option Int :=
  match splitCh '-' s with
  | [ys, ms, ds] => do
      let y ← digits? ys
      let m ← digits? ms
      let d ← digits? ds
      if 1 ≤ m ∧ m ≤ 12 ∧ 1 ≤ d ∧ d ≤ 31 then
        pure (daysFromCivil (y : Int) (m : Int) (d : Int))
      else none
  | _ => none

/-- Model of `src/lib/types.ts` `ExcelRow`: one canonical row produced by the row
parser. Absent optional cells are modelled as `""` / `none`, matching the
parser's `formatValue` output. -/
structure ExcelRow where
  dateStr : String
  heatId : String
  steelGrade : String
  unit : String
  startStr : String
  endStr : String
  seqNum : Option Int
  rawIndex : Int
deriving Repr, DecidableEq

/-- Entry of the validator's `UNIT_SEQUENCE` table. -/
structure UnitInfo where
  group : String
  order : Int
deriving Repr, DecidableEq

/-- The static `UNIT_SEQUENCE` table of `validator.ts`. -/
def UNIT_SEQUENCE (u : String) : Option UnitInfo :=
  match u with
  | "KR1" => some ⟨"KR", 1⟩
  | "KR2" => some ⟨"KR", 1⟩
  | "BOF1" => some ⟨"BOF", 2⟩
  | "BOF2" => some ⟨"BOF", 2⟩
  | "BOF3" => some ⟨"BOF", 2⟩
  | "BOF4" => some ⟨"BOF", 2⟩
  | "BOF5" => some ⟨"BOF", 2⟩
  | "LF1" => some ⟨"LF", 3⟩
  | "LF2" => some ⟨"LF", 3⟩
  | "LF3" => some ⟨"LF", 3⟩
  | "LF4" => some ⟨"LF", 3⟩
  | "LF5" => some ⟨"LF", 3⟩
  | "BCM1" => some ⟨"CASTER", 4⟩
  | "BCM2" => some ⟨"CASTER", 4⟩
  | "BCM3" => some ⟨"CASTER", 4⟩
  | "TSC1" => some ⟨"CASTER", 4⟩
  | "TSC2" => some ⟨"CASTER", 4⟩
  | _ => none

/-- Model of `parseTimeWithDate(dateStr, hhmm, baseDate, prevTime)` of `validator.ts`.
Timestamps are minutes (`1440*day + 60*h + m`); `baseDate` is an optional day
number (`none` = Invalid Date). Returns `none` where the source returns
`null`. -/
def parseTimeWithDate (dateStr hhmm : String) (baseDate : Option Int)
    (prevTime : Option Int) : Option Int :=
  if hhmm = "" then none
  else
    match parseHHMM hhmm with
    | none => none
    | some (h, m) =>
      let targetDate : Option Int := if dateStr ≠ "" then jsParseDate dateStr else baseDate
      match targetDate with
      | none => none
      | some d =>
        let currentTime : Int := 1440 * d + 60 * (h : Int) + (m : Int)
        match prevTime with
        | some p => if currentTime < p then some (currentTime + 1440) else some currentTime
        | none => some currentTime

/-- Model of `src/lib/types.ts` `ValidationError.kind`. -/
inductive VKind where
  | FORMAT | ROUTING | TIME | UNIT | MISSING | PLACEHOLDER
deriving Repr, DecidableEq

/-- Model of `src/lib/types.ts` `ValidationError` (the UI `message` text is not
modelled). -/
structure VError where
  heat_id : String
  kind : VKind
  unit : Option String
  opIndex : Option Int
deriving Repr, DecidableEq

/-- Model of `src/lib/types.ts` `Operation` with resolved timestamps in minutes. -/
structure Operation where
  unit : String
  group : String
  sequence_order : Int
  startTime : Int
  endTime : Int
  Duration_min : Int
  idleTimeMinutes : Option Int
deriving Repr, DecidableEq

/-- Model of `src/lib/types.ts` `GanttHeat` as assembled by `validateAndTransform`. -/
structure GanttHeat where
  Heat_ID : String
  Steel_Grade : String
  operations : List Operation
  isComplete : Bool
  totalDuration : Int
  totalIdleTime : Int
deriving Repr, DecidableEq

/-- Stable insertion used to model JS `Array.prototype.sort` (which is stable):
`lt y x` means the comparator put `y` strictly before `x`. An element is
inserted after every earlier element the comparator places strictly before it,
so comparator-equal elements keep their original relative order. -/
def insertBy (lt : α → α → Bool) (x : α) : List α → List α
  | [] => [x]
  | y :: ys => if lt y x then y :: insertBy lt x ys else x :: y :: ys

/-- Stable sort (model of JS `Array.prototype.sort` with a comparator). -/
def sortBy (lt : α → α → Bool) : List α → List α
  | [] => []
  | x :: xs => insertBy lt x (sortBy lt xs)

/-- Code-point lexicographic comparison of character lists. -/
def charListCmp : List Char → List Char → Int
  | [], [] => 0
  | [], _ :: _ => -1
  | _ :: _, [] => 1
  | a :: as, b :: bs =>
      if a.toNat < b.toNat then -1
      else if b.toNat < a.toNat then 1
      else charListCmp as bs

/-- Sign of JS `String.prototype.localeCompare` on the time strings the
comparator sees, modelled as code-point comparison. -/
def strCmp (a b : String) : Int :=
  charListCmp a.data b.data

/-- The row-sorting comparator of `validateAndTransform` (`sortedRowsForParsing`):
explicit `seqNum` when both rows have one, else lexical `startStr`, else
`rawIndex`. -/
def cmpRows (a b : ExcelRow) : Int :=
  let fallback : Int :=
    if a.startStr ≠ "" ∧ b.startStr ≠ "" ∧ a.startStr ≠ b.startStr then
      strCmp a.startStr b.startStr
    else a.rawIndex - b.rawIndex
  match a.seqNum, b.seqNum with
  | some sa, some sb => if sa ≠ sb then sa - sb else fallback
  | _, _ => fallback

/-- Model of `heatRows.sort(...)` of `validateAndTransform`. -/
def sortRows (rows : List ExcelRow) : List ExcelRow :=
  sortBy (fun y x => cmpRows y x < 0) rows

/-- lodash `groupBy(rows, 'heatId')`: groups in first-occurrence order of the
heat id, rows kept in input order within each group. (JS object iteration
would move purely numeric heat ids to the front; no claim depends on the
relative order of distinct heats.) -/
def groupByHeatId (rows : List ExcelRow) : List (String × List ExcelRow) :=
  rows.foldl
    (fun acc r =>
      if acc.any (fun p => p.1 = r.heatId) then
        acc.map (fun p => if p.1 = r.heatId then (p.1, p.2 ++ [r]) else p)
      else acc ++ [(r.heatId, [r])])
    []

/-- State of the first (parsing) pass over a heat's sorted rows: the
`tempOps`/`errors` accumulators, the `heatHasFatalError` flag and
`lastOpEndTime`. -/
structure ParseState where
  tempOps : List Operation
  errors : List VError
  fatal : Bool
  lastEnd : Option Int
deriving Repr, DecidableEq

/-- One iteration of the first pass of `validateAndTransform` (the
`for (const row of sortedRowsForParsing)` body). -/
def stepRow (heatId : String) (baseDate : Option Int) (st : ParseState)
    (row : ExcelRow) : ParseState :=
  match UNIT_SEQUENCE (jsToUpper row.unit) with
  | none =>
      { st with errors := st.errors ++ [⟨heatId, .UNIT, some row.unit, some row.rawIndex⟩] }
  | some info =>
    match parseTimeWithDate row.dateStr row.startStr baseDate st.lastEnd with
    | none =>
        { st with errors := st.errors ++ [⟨heatId, .FORMAT, some row.unit, some row.rawIndex⟩],
                  fatal := true }
    | some startTime =>
      match parseTimeWithDate row.dateStr row.endStr baseDate (some startTime) with
      | none =>
          { st with errors := st.errors ++ [⟨heatId, .FORMAT, some row.unit, some row.rawIndex⟩],
                    fatal := true }
      | some endTime =>
        if endTime - startTime < 0 then
          { st with errors := st.errors ++ [⟨heatId, .TIME, some row.unit, some row.rawIndex⟩],
                    fatal := true }
        else
          { st with
              tempOps := st.tempOps ++
                [⟨row.unit, info.group, row.seqNum.getD info.order, startTime, endTime,
                  endTime - startTime, none⟩],
              lastEnd := some endTime }

/-- The whole first pass over a heat's rows. -/
def parseHeatRows (heatId : String) (baseDate : Option Int)
    (rows : List ExcelRow) : ParseState :=
  rows.foldl (stepRow heatId baseDate) ⟨[], [], false, none⟩

/-- Model of `tempOps.sort((a,b) => a.startTime - b.startTime)`. -/
def sortOps (ops : List Operation) : List Operation :=
  sortBy (fun y x => y.startTime < x.startTime) ops

/-- The overlap rule: one `TIME` error per consecutive (start-sorted) pair with
`ops[i].startTime < ops[i-1].endTime`. -/
def overlapErrs (heatId : String) : List Operation → List VError
  | a :: b :: rest =>
      (if b.startTime < a.endTime then [⟨heatId, .TIME, none, none⟩] else []) ++
        overlapErrs heatId (b :: rest)
  | _ => []

/-- The `groupCounts` accumulator (`ops.reduce`): per group, in first-occurrence
order, the number of operations in that group. -/
def groupCounts (ops : List Operation) : List (String × Nat) :=
  ops.foldl
    (fun acc op =>
      if acc.any (fun p => p.1 = op.group) then
        acc.map (fun p => if p.1 = op.group then (p.1, p.2 + 1) else p)
      else acc ++ [(op.group, 1)])
    []

/-- The duplicate-stage-group rule: one `ROUTING` error per non-`LF` group with
more than one operation. -/
def dupGroupErrs (heatId : String) (ops : List Operation) : List VError :=
  (groupCounts ops).filterMap
    (fun p => if p.1 ≠ "LF" ∧ p.2 > 1 then some ⟨heatId, .ROUTING, none, none⟩ else none)

/-- Model of `ops.filter(op => op.group === 'LF')`. -/
def lfOps (ops : List Operation) : List Operation :=
  ops.filter (fun op => op.group = "LF")

/-- Model of `ops.find(op => op.group === 'BOF')`. -/
def bofOp (ops : List Operation) : Option Operation :=
  ops.find? (fun op => op.group = "BOF")

/-- The LF-requires-BOF rule (`ROUTING`, with the joined LF unit list). -/
def lfMissingErrs (heatId : String) (ops : List Operation) : List VError :=
  if (lfOps ops) ≠ [] ∧ bofOp ops = none then
    [⟨heatId, .ROUTING, some (joinComma ((lfOps ops).map (·.unit))), none⟩]
  else []

/-- The LF-after-BOF rule: one `ROUTING` error per LF operation starting before
the first BOF operation's end. -/
def lfOrderErrs (heatId : String) (ops : List Operation) : List VError :=
  match bofOp ops with
  | some bof =>
      if (lfOps ops) ≠ [] then
        (lfOps ops).filterMap
          (fun lf => if lf.startTime < bof.endTime then some ⟨heatId, .ROUTING, none, none⟩
                     else none)
      else []
  | none => []

/-- All errors of the second (validation) pass, in the order the source pushes
them. -/
def validationErrs (heatId : String) (ops : List Operation) : List VError :=
  overlapErrs heatId ops ++ dupGroupErrs heatId ops ++ lfMissingErrs heatId ops ++
    lfOrderErrs heatId ops

/-- The idle-time recomputation on the final sorted operations, for the
operations after the first: `idleTimeMinutes[i] = start[i] - end[i-1]`. -/
def withIdle : Operation → List Operation → List Operation
  | _, [] => []
  | prev, o :: rest =>
      { o with idleTimeMinutes := some (o.startTime - prev.endTime) } :: withIdle o rest

/-- The crash `validateAndTransform` can raise: `ops[0].idleTimeMinutes = 0`
is a `TypeError` when `ops` is empty. -/
inductive JsError where
  | typeError
deriving Repr, DecidableEq

/-- Idle-time assignment including `ops[0].idleTimeMinutes = 0`; `none` models
the `TypeError` thrown when `ops` is empty. -/
def assignIdle (ops : List Operation) : Option (List Operation) :=
  match ops with
  | [] => none
  | first :: rest =>
      some ({ first with idleTimeMinutes := some 0 } :: withIdle first rest)

/-- One iteration of the `for (const heatId in heats)` loop: the errors pushed
for this heat and the heat record if it was pushed onto `validHeats`; `.error`
models the thrown `TypeError`. -/
def processHeat (baseDate : Option Int) (heatId : String)
    (heatRows : List ExcelRow) : Except JsError (List VError × Option GanttHeat) :=
  if (parseHeatRows heatId baseDate (sortRows heatRows)).fatal then
    .ok ((parseHeatRows heatId baseDate (sortRows heatRows)).errors, none)
  else if validationErrs heatId
      (sortOps (parseHeatRows heatId baseDate (sortRows heatRows)).tempOps) = [] then
    match assignIdle (sortOps (parseHeatRows heatId baseDate (sortRows heatRows)).tempOps) with
    | none => .error .typeError
    | some ops2 =>
        .ok ((parseHeatRows heatId baseDate (sortRows heatRows)).errors,
             some ⟨heatId,
                   ((sortRows heatRows).headD ⟨"", "", "", "", "", "", none, 0⟩).steelGrade,
                   ops2,
                   ops2.any (fun op => op.group = "CASTER"),
                   ops2.foldl (fun acc op => acc + op.Duration_min) 0,
                   ops2.foldl (fun acc op => acc + op.idleTimeMinutes.getD 0) 0⟩)
  else
    .ok ((parseHeatRows heatId baseDate (sortRows heatRows)).errors ++
          validationErrs heatId
            (sortOps (parseHeatRows heatId baseDate (sortRows heatRows)).tempOps), none)

/-- The global `baseDate` of `validateAndTransform`:
`rows.length > 0 && rows[0].dateStr ? startOfDay(new Date(rows[0].dateStr)) : startOfDay(new Date())`.
`today` models `new Date()`. -/
def baseOf (today : Int) (rows : List ExcelRow) : Option Int :=
  match rows.head? with
  | some r => if r.dateStr ≠ "" then jsParseDate r.dateStr else some today
  | none => some today

/-- Combines one heat's outcome with the outcome of the remaining loop
iterations: a thrown exception aborts the run, otherwise the heat (if pushed)
and its errors are prepended in source order. -/
def consStep (hres : Except JsError (List VError × Option GanttHeat))
    (rres : Except JsError (List GanttHeat × List VError)) :
    Except JsError (List GanttHeat × List VError) :=
  match hres with
  | .error e => .error e
  | .ok (hErrs, oheat) =>
    match rres with
    | .error e => .error e
    | .ok (vh, errs) => .ok (oheat.toList ++ vh, hErrs ++ errs)

/-- The per-heat loop of `validateAndTransform`, accumulating `validHeats` and
`errors` in source order; a thrown `TypeError` aborts the whole run. -/
def runHeats (baseDate : Option Int) :
    List (String × List ExcelRow) → Except JsError (List GanttHeat × List VError)
  | [] => .ok ([], [])
  | (hid, hrows) :: rest =>
      consStep (processHeat baseDate hid hrows) (runHeats baseDate rest)

/-- Model of `validateAndTransform(rows)` of `src/lib/validator.ts`; `today` models
`new Date()`. Returns `(validHeats, errors)` or the thrown `TypeError`. -/
def validateAndTransform (today : Int) (rows : List ExcelRow) :
    Except JsError (List GanttHeat × List VError) :=
  runHeats (baseOf today rows) (groupByHeatId rows)

/-- A valid heat extended with the caster-sequencing fields that the spec's
derived-field calculator adds (`castingMachine`, `sequenceInCaster`). -/
structure SeqHeat extends GanttHeat where
  castingMachine : Option String
  sequenceInCaster : Option Nat
deriving Repr, DecidableEq

/-- Keeps the operation with the greatest `startTime`, preferring the later
operand on ties (the "last caster visit" of spec §4.6). -/
def pickLater (acc : Option Operation) (op : Operation) : Option Operation :=
  match acc with
  | none => some op
  | some a => if a.startTime ≤ op.startTime then some op else some a

/-- Modelled from the spec: the per-caster sequencing step is not in the
frontend sources (only its output type `GanttHeatDto` in
`Services/ganttService.ts` and its consumers are), so the selection of the
casting machine follows §4.6: "the `unit` of the operation with
`group == CASTER` and the greatest `startTime` (the last caster visit)". Ties
on `startTime` keep the last such operation. -/
def lastCasterOp (h : GanttHeat) : Option Operation :=
  (h.operations.filter (fun op => op.group = "CASTER")).foldl pickLater none

/-- Modelled from the spec: "a production day spans 08:00 local to 07:59:59 the
next calendar day; a timestamp's production day is therefore `date(t - 8h)`"
(§4.4), with timestamps in minutes. -/
def productionDay (t : Int) : Int := Int.fdiv (t - 480) 1440

/-- The `(castingMachine, productionDay)` cohort key of a heat, `none` when the
heat never reaches a caster. -/
def heatKey (h : GanttHeat) : Option (String × Int) :=
  (lastCasterOp h).map (fun c => (c.unit, productionDay c.startTime))

/-- The caster start time used for ordering within a cohort (`0` is never read:
every cohort member has a caster operation). -/
def casterStart (h : GanttHeat) : Int :=
  match lastCasterOp h with
  | some c => c.startTime
  | none => 0

/-- The `(castingMachine, productionDay)` cohort of position-tagged heats. -/
def grpOf (ind : List (Nat × GanttHeat)) (k : String × Int) : List (Nat × GanttHeat) :=
  ind.filter (fun q => heatKey q.2 = some k)

/-- A cohort sorted ascending by caster start time (stable, so start-time ties
keep input order). -/
def sortedGrpOf (ind : List (Nat × GanttHeat)) (k : String × Int) :
    List (Nat × GanttHeat) :=
  sortBy (fun q r => casterStart q.2 < casterStart r.2) (grpOf ind k)

/-- Sequencing of one position-tagged heat: its 1-based rank in its sorted
cohort. -/
def assignOne (ind : List (Nat × GanttHeat)) (p : Nat × GanttHeat) : SeqHeat :=
  match lastCasterOp p.2 with
  | none => ⟨p.2, none, none⟩
  | some c =>
      ⟨p.2, some c.unit,
       some ((sortedGrpOf ind (c.unit, productionDay c.startTime)).findIdx
          (fun q => q.1 == p.1) + 1)⟩

/-- Modelled from the spec: the cross-heat sequencing step of §4.6, absent from
the frontend sources. "Group all heats by `(castingMachine,
productionDay-of-its-caster-start-time)`; within each group sort by the caster
operation's `startTime` ascending; assign `sequenceInCaster = 1..N` in that
order. Heats with no caster get `sequenceInCaster = null`." Heats are tagged
with their position so that the stable sort breaks start-time ties by input
order. -/
def assignCasterSequence (heats : List GanttHeat) : List SeqHeat :=
  heats.enum.map (assignOne heats.enum)

/-- The full pipeline the claims quantify over: `validateAndTransform` followed
by the (spec-modelled) caster sequencing step. -/
def pipelineSeq (today : Int) (rows : List ExcelRow) :
    Except JsError (List SeqHeat × List VError) :=
  (validateAndTransform today rows).map (fun p => (assignCasterSequence p.1, p.2))

/-- Whether the start-time-sorted operation list has a consecutive pair with
`ops[i].startTime < ops[i-1].endTime`. -/
def hasOverlapPair : List Operation → Bool
  | a :: b :: rest => (decide (b.startTime < a.endTime)) || hasOverlapPair (b :: rest)
  | _ => false

/-- Number of operations of a heat that run on group `g`. -/
def keyCount (ops : List Operation) (g : String) : Nat :=
  (ops.filter (fun op => op.group = g)).length

/-! ## Concrete inputs used to instantiate the claims -/

/-- A heat whose only row has an unknown unit code: `validateAndTransform`
reaches `ops[0].idleTimeMinutes = 0` with an empty `ops` array. -/
def c2row : ExcelRow := ⟨"", "H1", "SG", "XYZ9", "08:00", "09:00", none, 2⟩

/-- A row whose end time equals its start time. -/
def c3row : ExcelRow := ⟨"2024-01-01", "HZ", "SG", "BOF1", "08:00", "08:00", none, 2⟩

/-- The valid heat `validateAndTransform` produces for `c3row`: a zero-duration
operation is accepted. -/
def c3heat : GanttHeat :=
  ⟨"HZ", "SG", [⟨"BOF1", "BOF", 2, 28401600, 28401600, 0, some 0⟩], false, 0, 0⟩

/-- A four-stage heat visiting two distinct ladle furnaces (`LF1`, `LF2`). -/
def c5rows : List ExcelRow :=
  [⟨"2024-01-15", "H5", "SG", "BOF1", "08:00", "09:00", none, 2⟩,
   ⟨"2024-01-15", "H5", "SG", "LF1", "09:30", "10:00", none, 3⟩,
   ⟨"2024-01-15", "H5", "SG", "LF2", "10:15", "10:45", none, 4⟩,
   ⟨"2024-01-15", "H5", "SG", "TSC1", "11:00", "12:00", none, 5⟩]

/-- The spec's three-row scenario heat `D7090` (§8). -/
def c7rows : List ExcelRow :=
  [⟨"2024-01-15", "D7090", "X70", "BOF1", "08:00", "09:00", none, 2⟩,
   ⟨"2024-01-15", "D7090", "X70", "LF1", "09:30", "10:30", none, 3⟩,
   ⟨"2024-01-15", "D7090", "X70", "TSC1", "11:00", "12:00", none, 4⟩]

/-- The sequenced heat the pipeline produces for `c7rows`. -/
def c7heat : SeqHeat :=
  ⟨⟨"D7090", "X70",
    [⟨"BOF1", "BOF", 2, 28421760, 28421820, 60, some 0⟩,
     ⟨"LF1", "LF", 3, 28421850, 28421910, 60, some 30⟩,
     ⟨"TSC1", "CASTER", 4, 28421940, 28422000, 60, some 30⟩],
    true, 180, 60⟩, some "TSC1", some 1⟩

/-- Two heats: `H1` carries a date, `H2` carries none anywhere. -/
def c8rows : List ExcelRow :=
  [⟨"2024-01-10", "H1", "SG", "BOF1", "08:00", "09:00", none, 2⟩,
   ⟨"", "H2", "SG", "BOF1", "08:00", "09:00", none, 3⟩]

/-- An overnight row: starts `23:00`, ends `01:00`, no date. -/
def c9row : ExcelRow := ⟨"", "H", "SG", "BOF1", "23:00", "01:00", none, 2⟩

/-- A row with an hour field beyond 24, making the resolved end precede the
resolved start by more than one day-rollover can fix. -/
def c3wrow : ExcelRow := ⟨"2024-01-01", "HX", "SG", "BOF1", "49:00", "00:30", none, 2⟩

/-- A heat whose operations genuinely overlap after the per-row overnight
bumps: the third row lands inside the second row's bumped interval. -/
def c4rows : List ExcelRow :=
  [⟨"2024-01-01", "HO", "SG", "KR1", "08:00", "12:00", none, 2⟩,
   ⟨"2024-01-01", "HO", "SG", "BOF1", "11:00", "11:30", none, 3⟩,
   ⟨"2024-01-01", "HO", "SG", "TSC1", "11:15", "11:45", none, 4⟩]

/-- The valid heat produced for `c5rows` (two ladle furnaces accepted). -/
def c5heat : GanttHeat :=
  ⟨"H5", "SG",
   [⟨"BOF1", "BOF", 2, 28421760, 28421820, 60, some 0⟩,
    ⟨"LF1", "LF", 3, 28421850, 28421880, 30, some 30⟩,
    ⟨"LF2", "LF", 3, 28421895, 28421925, 30, some 15⟩,
    ⟨"TSC1", "CASTER", 4, 28421940, 28422000, 60, some 15⟩],
   true, 180, 60⟩

/-- A heat visiting two distinct basic-oxygen furnaces (`BOF1`, `BOF2`). -/
def c5wrows : List ExcelRow :=
  [⟨"2024-01-01", "HW", "SG", "BOF1", "08:00", "09:00", none, 2⟩,
   ⟨"2024-01-01", "HW", "SG", "BOF2", "09:30", "10:30", none, 3⟩]

/-- A heat with a ladle-furnace operation and no basic-oxygen furnace. -/
def c6rows : List ExcelRow :=
  [⟨"2024-01-01", "HL", "SG", "LF1", "08:00", "09:00", none, 2⟩]

/-- Two heats casting on `TSC1` in the same production day plus one heat that
never reaches a caster (the spec's sequencing scenario, §8). -/
def c1rows : List ExcelRow :=
  [⟨"2024-01-15", "A", "SG", "BOF1", "07:00", "08:00", none, 2⟩,
   ⟨"2024-01-15", "A", "SG", "TSC1", "09:00", "10:00", none, 3⟩,
   ⟨"2024-01-15", "B", "SG", "BOF2", "12:00", "13:00", none, 4⟩,
   ⟨"2024-01-15", "B", "SG", "TSC1", "14:00", "15:00", none, 5⟩,
   ⟨"2024-01-15", "C", "SG", "KR1", "06:00", "07:00", none, 6⟩]

/-- The sequenced output of the pipeline on `c1rows`. -/
def c1out : List SeqHeat :=
  [⟨⟨"A", "SG",
     [⟨"BOF1", "BOF", 2, 28421700, 28421760, 60, some 0⟩,
      ⟨"TSC1", "CASTER", 4, 28421820, 28421880, 60, some 60⟩],
     true, 120, 60⟩, some "TSC1", some 1⟩,
   ⟨⟨"B", "SG",
     [⟨"BOF2", "BOF", 2, 28422000, 28422060, 60, some 0⟩,
      ⟨"TSC1", "CASTER", 4, 28422120, 28422180, 60, some 60⟩],
     true, 120, 60⟩, some "TSC1", some 2⟩,
   ⟨⟨"C", "SG",
     [⟨"KR1", "KR", 1, 28421640, 28421700, 60, some 0⟩],
     false, 60, 0⟩, none, none⟩]

/-- A row whose unit is written in lower case. -/
def c10row : ExcelRow := ⟨"2024-01-01", "HB", "SG", "bof1", "08:00", "09:00", none, 2⟩

/-! ## Helper lemmas -/

theorem insertBy_perm (lt : α → α → Bool) (x : α) (l : List α) :
    List.Perm (insertBy lt x l) (x :: l) := by
  induction l with
  | nil => simp [insertBy]
  | cons y ys ih =>
    by_cases h : lt y x = true
    · simpa [insertBy, h] using ((ih.cons y).trans (List.Perm.swap x y ys))
    · simp [insertBy, h]

theorem sortBy_perm (lt : α → α → Bool) (l : List α) :
    List.Perm (sortBy lt l) l := by
  induction l with
  | nil => simp [sortBy]
  | cons x xs ih => exact (insertBy_perm lt x (sortBy lt xs)).trans (ih.cons x)

theorem mem_sortBy {lt : α → α → Bool} {l : List α} {x : α} :
    x ∈ sortBy lt l ↔ x ∈ l :=
  (sortBy_perm lt l).mem_iff

/-- Every operation the parse pass pushes has `startTime ≤ endTime` (the
`duration < 0` guard). -/
theorem stepRow_tempOps_le (heatId : String) (baseDate : Option Int)
    (st : ParseState) (row : ExcelRow)
    (h : ∀ op ∈ st.tempOps, op.startTime ≤ op.endTime) :
    ∀ op ∈ (stepRow heatId baseDate st row).tempOps, op.startTime ≤ op.endTime := by
  intro op hop
  unfold stepRow at hop
  split at hop
  · exact h op hop
  · split at hop
    · exact h op hop
    · split at hop
      · exact h op hop
      · split at hop
        · exact h op hop
        · simp only [List.mem_append, List.mem_singleton] at hop
          rcases hop with hop | hop
          · exact h op hop
          · subst hop; simp; omega

theorem parseHeatRows_tempOps_le (heatId : String) (baseDate : Option Int)
    (rows : List ExcelRow) :
    ∀ op ∈ (parseHeatRows heatId baseDate rows).tempOps, op.startTime ≤ op.endTime := by
  have main : ∀ (rs : List ExcelRow) (st : ParseState),
      (∀ op ∈ st.tempOps, op.startTime ≤ op.endTime) →
      ∀ op ∈ (rs.foldl (stepRow heatId baseDate) st).tempOps, op.startTime ≤ op.endTime := by
    intro rs
    induction rs with
    | nil => intro st h; simpa using h
    | cons r rs ih =>
      intro st h
      exact ih _ (stepRow_tempOps_le heatId baseDate st r h)
  exact main rows ⟨[], [], false, none⟩ (by simp)

/-- Shape of the errors produced by the overlap rule. -/
theorem mem_overlapErrs (heatId : String) :
    ∀ (ops : List Operation), ∀ e ∈ overlapErrs heatId ops,
      e = ⟨heatId, .TIME, none, none⟩ := by
  intro ops
  induction ops with
  | nil => simp [overlapErrs]
  | cons a rest ih =>
    cases rest with
    | nil => simp [overlapErrs]
    | cons b r =>
      intro e he
      simp only [overlapErrs] at he
      rcases List.mem_append.mp he with h1 | h2
      · by_cases hb : b.startTime < a.endTime
        · simpa [hb] using h1
        · simp [hb] at h1
      · exact ih e h2

theorem overlapErrs_eq_nil_iff (heatId : String) :
    ∀ (ops : List Operation), overlapErrs heatId ops = [] ↔ hasOverlapPair ops = false := by
  intro ops
  induction ops with
  | nil => simp [overlapErrs, hasOverlapPair]
  | cons a rest ih =>
    cases rest with
    | nil => simp [overlapErrs, hasOverlapPair]
    | cons b r =>
      by_cases hb : b.startTime < a.endTime
      · simp [overlapErrs, hasOverlapPair, hb]
      · simpa [overlapErrs, hasOverlapPair, hb] using ih

/-- When there is no overlap error, the sorted operations form a
non-overlapping chain. -/
theorem overlapErrs_nil_chain (heatId : String) :
    ∀ (ops : List Operation), overlapErrs heatId ops = [] →
      List.Chain' (fun a b => a.endTime ≤ b.startTime) ops := by
  intro ops
  induction ops with
  | nil => intro _; simp
  | cons a rest ih =>
    cases rest with
    | nil => intro _; simp
    | cons b r =>
      intro h
      simp only [overlapErrs, List.append_eq_nil] at h
      by_cases hb : b.startTime < a.endTime
      · simp [hb] at h
      · exact List.Chain'.cons (by omega) (ih (by simpa [hb] using h.2))

theorem mem_dupGroupErrs (heatId : String) (ops : List Operation) :
    ∀ e ∈ dupGroupErrs heatId ops, e = ⟨heatId, .ROUTING, none, none⟩ := by
  intro e he
  simp only [dupGroupErrs, List.mem_filterMap] at he
  obtain ⟨p, _, hp⟩ := he
  by_cases hc : p.1 ≠ "LF" ∧ p.2 > 1
  · simpa [hc] using hp.symm
  · simp [hc] at hp

theorem mem_lfMissingErrs (heatId : String) (ops : List Operation) :
    ∀ e ∈ lfMissingErrs heatId ops, e.heat_id = heatId ∧ e.kind = .ROUTING := by
  intro e he
  unfold lfMissingErrs at he
  split at he
  · simp only [List.mem_singleton] at he
    subst he; exact ⟨rfl, rfl⟩
  · simp at he

theorem processHeat_some_props {baseDate : Option Int} {heatId : String}
    {heatRows : List ExcelRow} {es : List VError} {h : GanttHeat}
    (hp : processHeat baseDate heatId heatRows = .ok (es, some h)) :
    h.Heat_ID = heatId ∧
    (parseHeatRows heatId baseDate (sortRows heatRows)).fatal = false ∧
    validationErrs heatId
      (sortOps (parseHeatRows heatId baseDate (sortRows heatRows)).tempOps) = [] ∧
    assignIdle (sortOps (parseHeatRows heatId baseDate (sortRows heatRows)).tempOps) =
      some h.operations := by
  unfold processHeat at hp
  by_cases hfatal : (parseHeatRows heatId baseDate (sortRows heatRows)).fatal
  · rw [if_pos hfatal] at hp; simp at hp
  · rw [if_neg hfatal] at hp
    by_cases hv : validationErrs heatId
        (sortOps (parseHeatRows heatId baseDate (sortRows heatRows)).tempOps) = []
    · rw [if_pos hv] at hp
      cases hass : assignIdle
          (sortOps (parseHeatRows heatId baseDate (sortRows heatRows)).tempOps) with
      | none => rw [hass] at hp; exact absurd hp (by simp)
      | some ops2 =>
        rw [hass] at hp
        simp only [Except.ok.injEq, Prod.mk.injEq, Option.some.injEq] at hp
        obtain ⟨hes, hrec⟩ := hp
        subst hrec
        exact ⟨rfl, by simpa using hfatal, hv, rfl⟩
    · rw [if_neg hv] at hp; simp at hp

theorem processHeat_none_of_vErrs {baseDate : Option Int} {heatId : String}
    {heatRows : List ExcelRow}
    (hfatal : (parseHeatRows heatId baseDate (sortRows heatRows)).fatal = false)
    (hv : validationErrs heatId
      (sortOps (parseHeatRows heatId baseDate (sortRows heatRows)).tempOps) ≠ []) :
    processHeat baseDate heatId heatRows =
      .ok ((parseHeatRows heatId baseDate (sortRows heatRows)).errors ++
           validationErrs heatId
             (sortOps (parseHeatRows heatId baseDate (sortRows heatRows)).tempOps), none) := by
  unfold processHeat
  rw [if_neg (by simp [hfatal]), if_neg hv]

theorem runHeats_ok_mem_heat :
    ∀ (groups : List (String × List ExcelRow)) (baseDate : Option Int)
      (vh : List GanttHeat) (errs : List VError),
      runHeats baseDate groups = .ok (vh, errs) → ∀ h ∈ vh,
      ∃ hid hrows es, (hid, hrows) ∈ groups ∧
        processHeat baseDate hid hrows = .ok (es, some h) := by
  intro groups
  induction groups with
  | nil =>
    intro base vh errs hok h hh
    simp only [runHeats, Except.ok.injEq, Prod.mk.injEq] at hok
    rw [← hok.1] at hh; simp at hh
  | cons g rest ih =>
    intro base vh errs hok h hh
    obtain ⟨hid, hrows⟩ := g
    unfold runHeats at hok
    cases hp : processHeat base hid hrows with
    | error e => rw [hp] at hok; simp [consStep] at hok
    | ok pr =>
      obtain ⟨hErrs, oheat⟩ := pr
      cases hr : runHeats base rest with
      | error e => rw [hp, hr] at hok; simp [consStep] at hok
      | ok pr2 =>
        obtain ⟨vh2, errs2⟩ := pr2
        rw [hp, hr] at hok
        simp only [consStep, Except.ok.injEq, Prod.mk.injEq] at hok
        rw [← hok.1] at hh
        rcases List.mem_append.mp hh with hmem | hmem
        · have hsome : oheat = some h := by
            cases oheat with
            | none => simp at hmem
            | some hh2 => simp at hmem; rw [hmem]
          exact ⟨hid, hrows, hErrs, List.mem_cons_self _ _, by rw [hp, hsome]⟩
        · obtain ⟨hid2, hrows2, es2, hg2, hph⟩ := ih base vh2 errs2 hr h hmem
          exact ⟨hid2, hrows2, es2, List.mem_cons_of_mem _ hg2, hph⟩

theorem runHeats_err_mem :
    ∀ (groups : List (String × List ExcelRow)) (baseDate : Option Int)
      (vh : List GanttHeat) (errs : List VError) (hid : String)
      (hrows : List ExcelRow) (es : List VError) (o : Option GanttHeat),
      runHeats baseDate groups = .ok (vh, errs) → (hid, hrows) ∈ groups →
      processHeat baseDate hid hrows = .ok (es, o) → ∀ e ∈ es, e ∈ errs := by
  intro groups
  induction groups with
  | nil => intro base vh errs hid hrows es o _ hg; simp at hg
  | cons g rest ih =>
    intro base vh errs hid hrows es o hok hg hp e he
    obtain ⟨hid0, hrows0⟩ := g
    unfold runHeats at hok
    cases hp0 : processHeat base hid0 hrows0 with
    | error e0 => rw [hp0] at hok; simp [consStep] at hok
    | ok pr =>
      obtain ⟨hErrs, oheat⟩ := pr
      cases hr : runHeats base rest with
      | error e0 => rw [hp0, hr] at hok; simp [consStep] at hok
      | ok pr2 =>
        obtain ⟨vh2, errs2⟩ := pr2
        rw [hp0, hr] at hok
        simp only [consStep, Except.ok.injEq, Prod.mk.injEq] at hok
        rw [← hok.2]
        rcases List.mem_cons.mp hg with hhd | htl
        · injection hhd with e1 e2
          rw [← e1, ← e2, hp] at hp0
          simp only [Except.ok.injEq, Prod.mk.injEq] at hp0
          exact List.mem_append_left _ (hp0.1 ▸ he)
        · exact List.mem_append_right _ (ih base vh2 errs2 hid hrows es o hr htl hp e he)

theorem keys_nodup_eq :
    ∀ (l : List (α × β)), (l.map Prod.fst).Nodup →
      ∀ {k : α} {a b : β}, (k, a) ∈ l → (k, b) ∈ l → a = b := by
  intro l
  induction l with
  | nil => intro _ k a b ha; simp at ha
  | cons p rest ih =>
    intro hnd k a b ha hb
    obtain ⟨k0, v⟩ := p
    simp only [List.map_cons, List.nodup_cons] at hnd
    rcases List.mem_cons.mp ha with ha | ha <;> rcases List.mem_cons.mp hb with hb | hb
    · injection ha with _ e2; injection hb with _ e4; exact e2.trans e4.symm
    · exfalso; injection ha with e1 _
      exact hnd.1 (e1 ▸ List.mem_map_of_mem Prod.fst hb)
    · exfalso; injection hb with e1 _
      exact hnd.1 (e1 ▸ List.mem_map_of_mem Prod.fst ha)
    · exact ih hnd.2 ha hb

theorem groupByHeatId_keys_nodup (rows : List ExcelRow) :
    ((groupByHeatId rows).map Prod.fst).Nodup := by
  have main : ∀ (rs : List ExcelRow) (acc : List (String × List ExcelRow)),
      (acc.map Prod.fst).Nodup →
      ((rs.foldl
        (fun acc r =>
          if acc.any (fun p => p.1 = r.heatId) then
            acc.map (fun p => if p.1 = r.heatId then (p.1, p.2 ++ [r]) else p)
          else acc ++ [(r.heatId, [r])]) acc).map Prod.fst).Nodup := by
    intro rs
    induction rs with
    | nil => intro acc h; simpa using h
    | cons r rest ih =>
      intro acc h
      simp only [List.foldl_cons]
      apply ih
      by_cases hc : acc.any (fun p => p.1 = r.heatId)
      · rw [if_pos hc, List.map_map]
        have : (Prod.fst ∘ fun p : String × List ExcelRow =>
            if p.1 = r.heatId then (p.1, p.2 ++ [r]) else p) = Prod.fst := by
          funext p; by_cases hp : p.1 = r.heatId <;> simp [hp]
        rw [this]; exact h
      · rw [if_neg hc, List.map_append]
        simp only [List.map_cons, List.map_nil]
        rw [List.nodup_append]
        refine ⟨h, by simp, ?_⟩
        intro x hx
        simp only [List.mem_singleton]
        intro hxr
        apply hc
        rw [List.any_eq_true]
        obtain ⟨p, hp, hfst⟩ := List.mem_map.mp hx
        exact ⟨p, hp, by simp [hfst, hxr]⟩
  exact main rows [] (by simp)

theorem runHeats_dropped {groups : List (String × List ExcelRow)}
    {baseDate : Option Int} {vh : List GanttHeat} {errs : List VError}
    {hid : String} {hrows : List ExcelRow} {es : List VError}
    (hnd : (groups.map Prod.fst).Nodup)
    (hg : (hid, hrows) ∈ groups)
    (hp : processHeat baseDate hid hrows = .ok (es, none))
    (hok : runHeats baseDate groups = .ok (vh, errs)) :
    ∀ h ∈ vh, h.Heat_ID ≠ hid := by
  intro h hh heq
  obtain ⟨hid', hrows', es', hg', hp'⟩ := runHeats_ok_mem_heat groups baseDate vh errs hok h hh
  have hid'eq : hid' = hid := by
    rw [← heq]; exact (processHeat_some_props hp').1.symm
  rw [hid'eq] at hg' hp'
  have : hrows' = hrows := keys_nodup_eq groups hnd hg' hg
  rw [this, hp] at hp'
  simp at hp'

theorem pickLater_ne_none (acc : Option Operation) (x : Operation) :
    pickLater acc x ≠ none := by
  cases acc with
  | none => simp [pickLater]
  | some a => simp only [pickLater]; split <;> simp

theorem foldl_pickLater_eq_none :
    ∀ (l : List Operation) (acc : Option Operation),
      l.foldl pickLater acc = none ↔ acc = none ∧ l = [] := by
  intro l
  induction l with
  | nil => intro acc; simp
  | cons x xs ih =>
    intro acc
    simp only [List.foldl_cons]
    rw [ih]
    constructor
    · intro h; exact absurd h.1 (pickLater_ne_none acc x)
    · intro h; simp at h

theorem foldl_pickLater_props :
    ∀ (l : List Operation) (acc : Option Operation) (c : Operation),
      l.foldl pickLater acc = some c →
      (acc = some c ∨ c ∈ l) ∧ (∀ a, acc = some a → a.startTime ≤ c.startTime) ∧
        (∀ x ∈ l, x.startTime ≤ c.startTime) := by
  intro l
  induction l with
  | nil =>
    intro acc c h
    simp only [List.foldl_nil] at h
    refine ⟨Or.inl h, ?_, by simp⟩
    intro a ha; rw [ha] at h; injection h with h; rw [h]
  | cons x xs ih =>
    intro acc c h
    simp only [List.foldl_cons] at h
    obtain ⟨hmem, hacc, hall⟩ := ih (pickLater acc x) c h
    have hx : x.startTime ≤ c.startTime := by
      cases hc : acc with
      | none => exact hacc x (by simp [pickLater, hc])
      | some a =>
        by_cases hle : a.startTime ≤ x.startTime
        · exact hacc x (by simp [pickLater, hc, hle])
        · exact le_trans (le_of_not_le hle) (hacc a (by simp [pickLater, hc, hle]))
    refine ⟨?_, ?_, ?_⟩
    · rcases hmem with hm | hm
      · cases hc : acc with
        | none =>
          rw [hc] at hm; simp only [pickLater] at hm
          exact Or.inr (by rw [← Option.some.inj hm]; exact List.mem_cons_self x xs)
        | some a =>
          rw [hc] at hm; simp only [pickLater] at hm
          split at hm
          · exact Or.inr (by rw [← Option.some.inj hm]; exact List.mem_cons_self x xs)
          · exact Or.inl hm
      · exact Or.inr (List.mem_cons_of_mem x hm)
    · intro a ha
      by_cases hle : a.startTime ≤ x.startTime
      · exact le_trans hle hx
      · exact hacc a (by simp [pickLater, ha, hle])
    · intro y hy
      rcases List.mem_cons.mp hy with hy | hy
      · rw [hy]; exact hx
      · exact hall y hy

theorem lastCasterOp_spec (h : GanttHeat) :
    ∀ c, lastCasterOp h = some c →
      c ∈ h.operations ∧ c.group = "CASTER" ∧
        ∀ op ∈ h.operations, op.group = "CASTER" → op.startTime ≤ c.startTime := by
  intro c hc
  unfold lastCasterOp at hc
  obtain ⟨hmem, _, hall⟩ := foldl_pickLater_props _ none c hc
  have hcmem : c ∈ h.operations.filter (fun op => decide (op.group = "CASTER")) := by
    rcases hmem with hm | hm
    · simp at hm
    · exact hm
  obtain ⟨hmem2, hgrp⟩ := List.mem_filter.mp hcmem
  refine ⟨hmem2, by simpa using hgrp, ?_⟩
  intro op hop hopc
  exact hall op (List.mem_filter.mpr ⟨hop, by simpa using hopc⟩)

theorem lastCasterOp_eq_none_iff (h : GanttHeat) :
    lastCasterOp h = none ↔ ∀ op ∈ h.operations, op.group ≠ "CASTER" := by
  unfold lastCasterOp
  rw [foldl_pickLater_eq_none]
  simp [List.filter_eq_nil_iff]

theorem findIdx_rank {β : Type _} :
    ∀ (l : List (Nat × β)), (l.map Prod.fst).Nodup →
      l.map (fun p => l.findIdx (fun q => q.1 == p.1) + 1) =
        List.range' 1 l.length := by
  intro l
  induction l with
  | nil => intro _; rfl
  | cons hd tl ih =>
    intro hnd
    simp only [List.map_cons, List.nodup_cons] at hnd
    obtain ⟨hhd, htl⟩ := hnd
    simp only [List.map_cons, List.length_cons]
    rw [List.range'_succ]
    congr 1
    · rw [List.findIdx_cons]; simp
    · have hstep : ∀ p ∈ tl,
          (fun p : Nat × β => (hd :: tl).findIdx (fun q => q.1 == p.1) + 1) p =
            (fun p : Nat × β => (tl.findIdx (fun q => q.1 == p.1) + 1) + 1) p := by
        intro p hp
        have hne : (hd.1 == p.1) = false := by
          rw [beq_eq_false_iff_ne]
          intro he
          exact hhd (he ▸ List.mem_map_of_mem Prod.fst hp)
        simp only [List.findIdx_cons, hne, cond_false]
      rw [List.map_congr_left hstep]
      have hm2 : tl.map (fun p : Nat × β => (tl.findIdx (fun q => q.1 == p.1) + 1) + 1) =
          (tl.map (fun p : Nat × β => tl.findIdx (fun q => q.1 == p.1) + 1)).map
            (fun x => x + 1) := by
        rw [List.map_map]; rfl
      rw [hm2, ih htl]
      have hr := List.map_add_range' 1 1 tl.length 1
      rw [← hr]
      exact List.map_congr_left (by intro a _; omega)

theorem assignOne_toGanttHeat (ind : List (Nat × GanttHeat)) (p : Nat × GanttHeat) :
    (assignOne ind p).toGanttHeat = p.2 := by
  unfold assignOne
  cases hc : lastCasterOp p.2 <;> rfl

theorem heatKey_eq_some {h : GanttHeat} {k : String × Int}
    (hk : heatKey h = some k) :
    ∃ c, lastCasterOp h = some c ∧ k = (c.unit, productionDay c.startTime) := by
  unfold heatKey at hk
  cases hc : lastCasterOp h with
  | none => rw [hc] at hk; simp at hk
  | some c =>
    rw [hc] at hk
    simp only [Option.map_some'] at hk
    exact ⟨c, rfl, (Option.some.inj hk).symm⟩

/-- The sequencing numbers handed out inside one `(castingMachine,
productionDay)` cohort are a permutation of `1..N`. -/
theorem assignCasterSequence_group_perm (heats : List GanttHeat) (k : String × Int) :
    List.Perm
      (((assignCasterSequence heats).filter
          (fun sh => heatKey sh.toGanttHeat = some k)).map
        (fun sh => sh.sequenceInCaster))
      ((List.range' 1 (((assignCasterSequence heats).filter
          (fun sh => heatKey sh.toGanttHeat = some k)).length)).map some) := by
  have hfil :
      (assignCasterSequence heats).filter (fun sh => heatKey sh.toGanttHeat = some k) =
        (grpOf heats.enum k).map (assignOne heats.enum) := by
    unfold assignCasterSequence grpOf
    rw [List.filter_map]
    congr 1
    apply List.filter_congr
    intro q _
    simp [Function.comp, assignOne_toGanttHeat]
  have hgrp_nodup : ((grpOf heats.enum k).map Prod.fst).Nodup := by
    have hsub : (grpOf heats.enum k).Sublist heats.enum := List.filter_sublist _
    exact List.Nodup.sublist (hsub.map Prod.fst) (List.nodup_enum_map_fst _)
  have hsorted_perm : List.Perm (sortedGrpOf heats.enum k) (grpOf heats.enum k) :=
    sortBy_perm _ _
  have hsorted_nodup : ((sortedGrpOf heats.enum k).map Prod.fst).Nodup :=
    ((hsorted_perm.map Prod.fst).nodup_iff).mpr hgrp_nodup
  have hseq : ∀ p ∈ grpOf heats.enum k,
      (fun p => (assignOne heats.enum p).sequenceInCaster) p =
        (fun p : Nat × GanttHeat =>
          some ((sortedGrpOf heats.enum k).findIdx (fun q => q.1 == p.1) + 1)) p := by
    intro p hp
    have hk : heatKey p.2 = some k := by
      have := (List.mem_filter.mp hp).2
      simpa using this
    obtain ⟨c, hc, hkc⟩ := heatKey_eq_some hk
    simp only [assignOne, hc, hkc]
  have h1 : ((assignCasterSequence heats).filter
        (fun sh => heatKey sh.toGanttHeat = some k)).map (fun sh => sh.sequenceInCaster) =
      (grpOf heats.enum k).map
        (fun p => (assignOne heats.enum p).sequenceInCaster) := by
    rw [hfil, List.map_map]; rfl
  have h2 : (grpOf heats.enum k).map
        (fun p => (assignOne heats.enum p).sequenceInCaster) =
      (grpOf heats.enum k).map
        (fun p : Nat × GanttHeat =>
          some ((sortedGrpOf heats.enum k).findIdx (fun q => q.1 == p.1) + 1)) :=
    List.map_congr_left hseq
  have h3 : List.Perm
      ((grpOf heats.enum k).map
        (fun p : Nat × GanttHeat =>
          some ((sortedGrpOf heats.enum k).findIdx (fun q => q.1 == p.1) + 1)))
      ((sortedGrpOf heats.enum k).map
        (fun p : Nat × GanttHeat =>
          some ((sortedGrpOf heats.enum k).findIdx (fun q => q.1 == p.1) + 1))) :=
    (hsorted_perm.map _).symm
  have h4 : ((sortedGrpOf heats.enum k).map
        (fun p : Nat × GanttHeat =>
          some ((sortedGrpOf heats.enum k).findIdx (fun q => q.1 == p.1) + 1))) =
      ((sortedGrpOf heats.enum k).map
        (fun p : Nat × GanttHeat =>
          (sortedGrpOf heats.enum k).findIdx (fun q => q.1 == p.1) + 1)).map some := by
    rw [List.map_map]; rfl
  have h5 : ((sortedGrpOf heats.enum k).map
        (fun p : Nat × GanttHeat =>
          (sortedGrpOf heats.enum k).findIdx (fun q => q.1 == p.1) + 1)).map some =
      (List.range' 1 (sortedGrpOf heats.enum k).length).map some := by
    rw [findIdx_rank _ hsorted_nodup]
  have h6 : (sortedGrpOf heats.enum k).length =
      ((assignCasterSequence heats).filter
        (fun sh => heatKey sh.toGanttHeat = some k)).length := by
    rw [hfil, List.length_map, hsorted_perm.length_eq]
  rw [h1, h2, ← h6]
  exact h3.trans (List.Perm.of_eq (h4.trans h5))

theorem withIdle_map_se :
    ∀ (l : List Operation) (prev : Operation),
      (withIdle prev l).map (fun o => (o.startTime, o.endTime)) =
        l.map (fun o => (o.startTime, o.endTime)) := by
  intro l
  induction l with
  | nil => intro prev; simp [withIdle]
  | cons o rest ih => intro prev; simp [withIdle, ih]

theorem assignIdle_map_se {ops ops2 : List Operation}
    (h : assignIdle ops = some ops2) :
    ops2.map (fun o => (o.startTime, o.endTime)) =
      ops.map (fun o => (o.startTime, o.endTime)) := by
  cases ops with
  | nil => simp [assignIdle] at h
  | cons first rest =>
    simp only [assignIdle, Option.some.injEq] at h
    rw [← h]
    simp [withIdle_map_se]

theorem groupCounts_spec :
    ∀ (ops : List Operation),
      ((groupCounts ops).map Prod.fst).Nodup ∧
      (∀ g n, (g, n) ∈ groupCounts ops ↔
        ((∃ op ∈ ops, op.group = g) ∧ n = keyCount ops g)) := by
  intro ops
  induction ops using List.reverseRecOn with
  | nil => exact ⟨by simp [groupCounts], by simp [groupCounts]⟩
  | append_singleton l x ih =>
    obtain ⟨hnd, hiff⟩ := ih
    have hfold : groupCounts (l ++ [x]) =
        (if (groupCounts l).any (fun p => p.1 = x.group) then
          (groupCounts l).map
            (fun p => if p.1 = x.group then (p.1, p.2 + 1) else p)
        else groupCounts l ++ [(x.group, 1)]) := by
      unfold groupCounts
      rw [List.foldl_append]
      rfl
    by_cases hany : (groupCounts l).any (fun p => p.1 = x.group)
    · rw [if_pos hany] at hfold
      obtain ⟨p0, hp0, hp0g⟩ := List.any_eq_true.mp hany
      have hp0g : p0.1 = x.group := by simpa using hp0g
      have hp0spec := (hiff p0.1 p0.2).mp hp0
      have hx_in_l : ∃ op ∈ l, op.group = x.group := hp0g ▸ hp0spec.1
      constructor
      · rw [hfold, List.map_map]
        have : (Prod.fst ∘ fun p : String × Nat =>
            if p.1 = x.group then (p.1, p.2 + 1) else p) = Prod.fst := by
          funext p; by_cases hp : p.1 = x.group <;> simp [hp]
        rw [this]; exact hnd
      · intro g n
        rw [hfold]
        have hkc_eq : ∀ g2 : String, g2 = x.group →
            keyCount (l ++ [x]) g2 = keyCount l g2 + 1 := by
          intro g2 hg2
          unfold keyCount
          rw [List.filter_append]
          have hxg : x.group = g2 := hg2.symm
          simp [hxg]
        have hkc_ne : ∀ g2 : String, g2 ≠ x.group →
            keyCount (l ++ [x]) g2 = keyCount l g2 := by
          intro g2 hg2
          unfold keyCount
          rw [List.filter_append]
          have : (x.group = g2) = False := by
            simp only [eq_iff_iff, iff_false]
            intro hc; exact hg2 hc.symm
          simp [this]
        constructor
        · intro hmem
          obtain ⟨q, hq, hbump⟩ := List.mem_map.mp hmem
          obtain ⟨q1, q2⟩ := q
          simp only at hbump
          by_cases hqg : q1 = x.group
          · rw [if_pos hqg] at hbump
            injection hbump with e1 e2
            have hg : g = x.group := e1 ▸ hqg
            refine ⟨⟨x, by simp, hg.symm⟩, ?_⟩
            rw [← e2, hkc_eq g hg, ← e1, ((hiff q1 q2).mp hq).2]
          · rw [if_neg hqg] at hbump
            injection hbump with e1 e2
            have hgx : g ≠ x.group := e1 ▸ hqg
            obtain ⟨⟨op, hop, hopg⟩, hcnt⟩ := (hiff q1 q2).mp hq
            refine ⟨⟨op, List.mem_append_left _ hop, e1 ▸ hopg⟩, ?_⟩
            rw [← e2, hkc_ne g hgx, ← e1, hcnt]
        · rintro ⟨⟨op, hop, hopg⟩, hn⟩
          by_cases hg : g = x.group
          · refine List.mem_map.mpr
              ⟨(x.group, keyCount l x.group), ?_, ?_⟩
            · exact (hiff x.group (keyCount l x.group)).mpr ⟨hx_in_l, rfl⟩
            · simp only [if_pos]
              rw [← hg]
              congr 1
              rw [hn, hkc_eq g hg, hg]
          · have hopl : op ∈ l := by
              rcases List.mem_append.mp hop with h1 | h1
              · exact h1
              · exfalso; apply hg
                rw [← hopg]
                have : op = x := by simpa using h1
                rw [this]
            refine List.mem_map.mpr ⟨(g, n), ?_, ?_⟩
            · exact (hiff g n).mpr ⟨⟨op, hopl, hopg⟩, by rw [hn, hkc_ne g hg]⟩
            · rw [if_neg hg]
    · rw [if_neg hany] at hfold
      have hno_l : ¬∃ op ∈ l, op.group = x.group := by
        rintro ⟨op, hop, hopg⟩
        apply hany
        rw [List.any_eq_true]
        exact ⟨(x.group, keyCount l x.group),
          (hiff x.group (keyCount l x.group)).mpr ⟨⟨op, hop, hopg⟩, rfl⟩, by simp⟩
      have hkc0 : keyCount l x.group = 0 := by
        unfold keyCount
        rw [List.length_eq_zero, List.filter_eq_nil_iff]
        intro op hop
        simp only [decide_eq_true_eq]
        intro hc
        exact hno_l ⟨op, hop, hc⟩
      constructor
      · rw [hfold, List.map_append]
        simp only [List.map_cons, List.map_nil]
        rw [List.nodup_append]
        refine ⟨hnd, by simp, ?_⟩
        intro a ha
        simp only [List.mem_singleton]
        intro hax
        apply hany
        rw [List.any_eq_true]
        obtain ⟨p, hp, hfst⟩ := List.mem_map.mp ha
        exact ⟨p, hp, by simp [hfst, hax]⟩
      · intro g n
        rw [hfold]
        rw [List.mem_append, List.mem_singleton]
        constructor
        · intro hmem
          rcases hmem with hmem | hmem
          · have hq := (hiff g n).mp hmem
            obtain ⟨⟨op, hop, hopg⟩, hcnt⟩ := hq
            have hgx : g ≠ x.group := by
              intro hc
              exact hno_l ⟨op, hop, hc ▸ hopg⟩
            refine ⟨⟨op, List.mem_append_left _ hop, hopg⟩, ?_⟩
            rw [hcnt]
            unfold keyCount
            rw [List.filter_append]
            have : (x.group = g) ↔ False := by
              constructor
              · intro hc; exact hgx hc.symm
              · intro hc; exact hc.elim
            simp [this]
          · have hg : g = x.group ∧ n = 1 := by
              injection hmem with a b
              exact ⟨a, b⟩
            refine ⟨⟨x, by simp, hg.1.symm⟩, ?_⟩
            unfold keyCount
            rw [List.filter_append]
            have hl0 : l.filter (fun op => decide (op.group = g)) = [] := by
              rw [List.filter_eq_nil_iff]
              intro op hop
              simp only [decide_eq_true_eq]
              intro hc
              exact hno_l ⟨op, hop, hg.1 ▸ hc⟩
            rw [hl0]
            simp [hg.1, hg.2]
        · rintro ⟨⟨op, hop, hopg⟩, hn⟩
          by_cases hg : g = x.group
          · right
            have hkc : keyCount (l ++ [x]) g = 1 := by
              unfold keyCount
              rw [List.filter_append]
              have hl0 : l.filter (fun op => decide (op.group = g)) = [] := by
                rw [List.filter_eq_nil_iff]
                intro op2 hop2
                simp only [decide_eq_true_eq]
                intro hc
                exact hno_l ⟨op2, hop2, hg ▸ hc⟩
              rw [hl0]
              simp [hg]
            rw [hn, hkc, hg]
          · left
            have hopl : op ∈ l := by
              rcases List.mem_append.mp hop with h1 | h1
              · exact h1
              · exfalso; apply hg; rw [← hopg]; congr 1; simpa using h1
            have hkc : keyCount (l ++ [x]) g = keyCount l g := by
              unfold keyCount
              rw [List.filter_append]
              have : (x.group = g) ↔ False := by
                constructor
                · intro hc; exact hg hc.symm
                · intro hc; exact hc.elim
              simp [this]
            exact (hiff g n).mpr ⟨⟨op, hopl, hopg⟩, by rw [hn, hkc]⟩

theorem mem_lfOrderErrs (heatId : String) (ops : List Operation) :
    ∀ e ∈ lfOrderErrs heatId ops, e = ⟨heatId, .ROUTING, none, none⟩ := by
  intro e he
  unfold lfOrderErrs at he
  split at he
  · split at he
    · simp only [List.mem_filterMap] at he
      obtain ⟨lf, _, hlf⟩ := he
      split at hlf
      · exact (Option.some.inj hlf).symm
      · exact absurd hlf (by simp)
    · simp at he
  · simp at he

theorem mem_sortOps {ops : List Operation} {x : Operation} :
    x ∈ sortOps ops ↔ x ∈ ops :=
  mem_sortBy

theorem stepRow_unit_err {hid : String} {base : Option Int} {st : ParseState}
    {row : ExcelRow} (hu : UNIT_SEQUENCE (jsToUpper row.unit) = none) :
    stepRow hid base st row =
      { st with errors := st.errors ++ [⟨hid, .UNIT, some row.unit, some row.rawIndex⟩] } := by
  unfold stepRow
  rw [hu]

theorem stepRow_start_err {hid : String} {base : Option Int} {st : ParseState}
    {row : ExcelRow} {info : UnitInfo}
    (hu : UNIT_SEQUENCE (jsToUpper row.unit) = some info)
    (hs : parseTimeWithDate row.dateStr row.startStr base st.lastEnd = none) :
    stepRow hid base st row =
      { st with errors := st.errors ++ [⟨hid, .FORMAT, some row.unit, some row.rawIndex⟩],
                fatal := true } := by
  simp only [stepRow, hu, hs]

theorem stepRow_end_err {hid : String} {base : Option Int} {st : ParseState}
    {row : ExcelRow} {info : UnitInfo} {s : Int}
    (hu : UNIT_SEQUENCE (jsToUpper row.unit) = some info)
    (hs : parseTimeWithDate row.dateStr row.startStr base st.lastEnd = some s)
    (he : parseTimeWithDate row.dateStr row.endStr base (some s) = none) :
    stepRow hid base st row =
      { st with errors := st.errors ++ [⟨hid, .FORMAT, some row.unit, some row.rawIndex⟩],
                fatal := true } := by
  simp only [stepRow, hu, hs, he]

theorem stepRow_time_err {hid : String} {base : Option Int} {st : ParseState}
    {row : ExcelRow} {info : UnitInfo} {s e : Int}
    (hu : UNIT_SEQUENCE (jsToUpper row.unit) = some info)
    (hs : parseTimeWithDate row.dateStr row.startStr base st.lastEnd = some s)
    (he : parseTimeWithDate row.dateStr row.endStr base (some s) = some e)
    (hlt : e - s < 0) :
    stepRow hid base st row =
      { st with errors := st.errors ++ [⟨hid, .TIME, some row.unit, some row.rawIndex⟩],
                fatal := true } := by
  simp only [stepRow, hu, hs, he]
  rw [if_pos hlt]

theorem stepRow_push {hid : String} {base : Option Int} {st : ParseState}
    {row : ExcelRow} {info : UnitInfo} {s e : Int}
    (hu : UNIT_SEQUENCE (jsToUpper row.unit) = some info)
    (hs : parseTimeWithDate row.dateStr row.startStr base st.lastEnd = some s)
    (he : parseTimeWithDate row.dateStr row.endStr base (some s) = some e)
    (hge : ¬e - s < 0) :
    stepRow hid base st row =
      { st with
          tempOps := st.tempOps ++
            [⟨row.unit, info.group, row.seqNum.getD info.order, s, e, e - s, none⟩],
          lastEnd := some e } := by
  simp only [stepRow, hu, hs, he]
  rw [if_neg hge]

/-- Operations of a heat accepted into `validHeats` respect `startTime ≤
endTime` per operation and are chronologically chained without overlap. -/
theorem validHeat_ops_props {today : Int} {rows : List ExcelRow}
    {vh : List GanttHeat} {errs : List VError}
    (hok : validateAndTransform today rows = .ok (vh, errs)) :
    ∀ h ∈ vh, (∀ op ∈ h.operations, op.startTime ≤ op.endTime) ∧
      List.Chain' (fun a b => a.endTime ≤ b.startTime) h.operations := by
  intro h hh
  obtain ⟨hid, hrows, es, hg, hp⟩ := runHeats_ok_mem_heat _ _ _ _ hok h hh
  obtain ⟨_, hfatal, hv, hass⟩ := processHeat_some_props hp
  have hse := assignIdle_map_se hass
  constructor
  · intro op hop
    have hpair : (op.startTime, op.endTime) ∈
        h.operations.map (fun o => (o.startTime, o.endTime)) :=
      List.mem_map_of_mem _ hop
    rw [hse] at hpair
    obtain ⟨op2, hop2, hp2⟩ := List.mem_map.mp hpair
    injection hp2 with e1 e2
    rw [← e1, ← e2]
    exact parseHeatRows_tempOps_le hid (baseOf today rows) (sortRows hrows) op2
      (mem_sortOps.mp hop2)
  · have hov : overlapErrs hid
        (sortOps (parseHeatRows hid (baseOf today rows) (sortRows hrows)).tempOps) = [] := by
      have := hv
      unfold validationErrs at this
      exact (List.append_eq_nil.mp
        (List.append_eq_nil.mp (List.append_eq_nil.mp this).1).1).1
    have hchain := overlapErrs_nil_chain hid _ hov
    have hchain2 : List.Chain' (fun p q : Int × Int => p.2 ≤ q.1)
        ((sortOps (parseHeatRows hid (baseOf today rows) (sortRows hrows)).tempOps).map
          (fun o => (o.startTime, o.endTime))) :=
      (List.chain'_map _).mpr hchain
    rw [← hse] at hchain2
    exact (List.chain'_map _).mp hchain2

/-- A heat whose sorted operations violate a second-pass rule contributes its
rule errors to the global list and is excluded from `validHeats`. -/
theorem heat_rejected {today : Int} {rows : List ExcelRow}
    {vh : List GanttHeat} {errs : List VError} {hid : String}
    {hrows : List ExcelRow}
    (hok : validateAndTransform today rows = .ok (vh, errs))
    (hg : (hid, hrows) ∈ groupByHeatId rows)
    (hfatal : (parseHeatRows hid (baseOf today rows) (sortRows hrows)).fatal = false)
    (hv : validationErrs hid
      (sortOps (parseHeatRows hid (baseOf today rows) (sortRows hrows)).tempOps) ≠ []) :
    (∀ e ∈ validationErrs hid
        (sortOps (parseHeatRows hid (baseOf today rows) (sortRows hrows)).tempOps),
      e ∈ errs) ∧
    (∀ h ∈ vh, h.Heat_ID ≠ hid) := by
  have hp := processHeat_none_of_vErrs hfatal hv
  constructor
  · intro e he
    exact runHeats_err_mem _ _ _ _ _ _ _ _ hok hg hp e (List.mem_append_right _ he)
  · exact runHeats_dropped (groupByHeatId_keys_nodup rows) hg hp hok

theorem parseTimeWithDate_eq (ds hm : String) (b p : Option Int) :
    parseTimeWithDate ds hm b p =
      parseTimeWithDate "" hm (if ds ≠ "" then jsParseDate ds else b) p := by
  by_cases h0 : hm = ""
  · simp [parseTimeWithDate, h0]
  · unfold parseTimeWithDate
    rw [if_neg h0, if_neg h0]
    cases hp : parseHHMM hm with
    | none => rfl
    | some v => obtain ⟨hh, mm⟩ := v; rfl

theorem parseTimeWithDate_val_none (hm : String) (h m : Nat) (d : Int)
    (h0 : ¬hm = "") (hp : parseHHMM hm = some (h, m)) :
    parseTimeWithDate "" hm (some d) none =
      some (1440 * d + 60 * (h : Int) + (m : Int)) := by
  unfold parseTimeWithDate
  rw [if_neg h0, hp]
  rfl

theorem parseTimeWithDate_val_some (hm : String) (h m : Nat) (d pt : Int)
    (h0 : ¬hm = "") (hp : parseHHMM hm = some (h, m)) :
    parseTimeWithDate "" hm (some d) (some pt) =
      if 1440 * d + 60 * (h : Int) + (m : Int) < pt
      then some (1440 * d + 60 * (h : Int) + (m : Int) + 1440)
      else some (1440 * d + 60 * (h : Int) + (m : Int)) := by
  unfold parseTimeWithDate
  rw [if_neg h0, hp]
  rfl

theorem parseTimeWithDate_invalid_base (hm : String) (p : Option Int) :
    parseTimeWithDate "" hm none p = none := by
  by_cases h0 : hm = ""
  · simp [parseTimeWithDate, h0]
  · unfold parseTimeWithDate
    rw [if_neg h0]
    cases hp : parseHHMM hm with
    | none => rfl
    | some v => obtain ⟨hh, mm⟩ := v; rfl

theorem two_mem_two_le_length {l : List α} {a b : α}
    (ha : a ∈ l) (hb : b ∈ l) (hab : a ≠ b) : 2 ≤ l.length := by
  obtain ⟨s, t, rfl⟩ := List.append_of_mem ha
  have hb2 : b ∈ s ∨ b ∈ t := by
    rcases List.mem_append.mp hb with h1 | h1
    · exact Or.inl h1
    · rcases List.mem_cons.mp h1 with h2 | h2
      · exact absurd h2.symm hab
      · exact Or.inr h2
  rcases hb2 with h1 | h1 <;>
    · have := List.length_pos.mpr (List.ne_nil_of_mem h1)
      simp only [List.length_append, List.length_cons]
      omega

/-! ## Claims -/

/-- Claim C2: the claim says `validateAndTransform` returns normally on every
list of canonical rows, in particular on rows with unknown units. The code
disagrees: for a heat all of whose rows carry unknown unit codes, `ops` is
empty and `ops[0].idleTimeMinutes = 0` throws a `TypeError`, modelled here as
the run evaluating to `.error .typeError` on the single-row heat `c2row`. -/
theorem claim_c2_crash :
    validateAndTransform 19700 [c2row] = .error .typeError := by rfl

/-- Claim C3 counterexample: a row whose parsed end time equals its start time
(`08:00`–`08:00`) is accepted — `validateAndTransform` emits no error at all
and the heat enters `validHeats` with a zero-duration operation, refuting both
"fatal TIME error iff `endTime <= startTime`" and "every operation satisfies
`endTime > startTime` strictly". -/
theorem claim_c3_counterexample :
    validateAndTransform 0 [c3row] = .ok ([c3heat], []) ∧
    c3heat.operations.map (fun op => op.endTime - op.startTime) = [0] := by
  exact ⟨by rfl, by rfl⟩

/-- Claim C3 as amended: for a row of a known unit whose `startStr` and `endStr`
both resolve, the parse pass records a fatal `TIME` error exactly when the
resolved `endTime` is strictly *less than* the resolved `startTime` (the code
checks `duration < 0`, not `<= 0`); when `endTime ≥ startTime` the operation is
accepted. Consequently every operation of every heat in `validHeats` satisfies
`endTime ≥ startTime` (not necessarily strictly). -/
theorem claim_c3 :
    (∀ (hid : String) (base : Option Int) (st : ParseState) (row : ExcelRow)
        (info : UnitInfo) (s e : Int),
      UNIT_SEQUENCE (jsToUpper row.unit) = some info →
      parseTimeWithDate row.dateStr row.startStr base st.lastEnd = some s →
      parseTimeWithDate row.dateStr row.endStr base (some s) = some e →
      ((stepRow hid base st row =
          { st with errors := st.errors ++ [⟨hid, .TIME, some row.unit, some row.rawIndex⟩],
                    fatal := true }) ↔ e < s) ∧
      (s ≤ e → stepRow hid base st row =
          { st with
              tempOps := st.tempOps ++
                [⟨row.unit, info.group, row.seqNum.getD info.order, s, e, e - s, none⟩],
              lastEnd := some e })) ∧
    (∀ (today : Int) (rows : List ExcelRow) (vh : List GanttHeat) (errs : List VError),
      validateAndTransform today rows = .ok (vh, errs) →
      ∀ h ∈ vh, ∀ op ∈ h.operations, op.startTime ≤ op.endTime) := by
  constructor
  · intro hid base st row info s e hu hs he
    constructor
    · constructor
      · intro heq
        by_contra hns
        have hpush := @stepRow_push hid base st row info s e hu hs he (by omega)
        rw [hpush] at heq
        have hc := congrArg ParseState.errors heq
        simp at hc
      · intro hlt
        exact stepRow_time_err hu hs he (by omega)
    · intro hle
      exact stepRow_push hu hs he (by omega)
  · intro today rows vh errs hok h hh
    exact (validHeat_ops_props hok h hh).1

/-- Claim C3 witness: the amended claim instantiated at `c3wrow` (a `49:00` start
makes the resolved end precede the start, yielding the fatal `TIME` state) and
at the zero-duration row `c3row` (accepted and pushed). -/
theorem claim_c3_witness :
    (stepRow "HX" (some 19723) ⟨[], [], false, none⟩ c3wrow =
      ⟨[], [⟨"HX", .TIME, some "BOF1", some 2⟩], true, none⟩) ∧
    (stepRow "HZ" (some 19723) ⟨[], [], false, none⟩ c3row =
      ⟨[⟨"BOF1", "BOF", 2, 28401600, 28401600, 0, none⟩], [], false, some 28401600⟩) := by
  constructor
  · exact (claim_c3.1 "HX" (some 19723) ⟨[], [], false, none⟩ c3wrow ⟨"BOF", 2⟩
      28404060 28402590 (by rfl) (by rfl) (by rfl)).1.mpr (by decide)
  · exact (claim_c3.1 "HZ" (some 19723) ⟨[], [], false, none⟩ c3row ⟨"BOF", 2⟩
      28401600 28401600 (by rfl) (by rfl) (by rfl)).2 (by decide)

/-- Claim C9: overnight rollover — a `23:00 → 01:00` row with no previously
resolved end time resolves to an end exactly two hours (120 minutes) after its
start, for every base day `d`: the end is rolled forward one day instead of
producing a negative duration. -/
theorem claim_c9 (d : Int) :
    parseTimeWithDate "" "23:00" (some d) none = some (1440 * d + 1380) ∧
    parseTimeWithDate "" "01:00" (some d) (some (1440 * d + 1380)) =
      some (1440 * d + 1500) ∧
    (stepRow "H" (some d) ⟨[], [], false, none⟩ c9row).tempOps.map
      (fun o => o.endTime - o.startTime) = [120] := by
  have h1 : parseTimeWithDate "" "23:00" (some d) none = some (1440 * d + 1380) := by
    rw [parseTimeWithDate_val_none "23:00" 23 0 d (by decide) (by rfl)]
    norm_num
  have h2 : parseTimeWithDate "" "01:00" (some d) (some (1440 * d + 1380)) =
      some (1440 * d + 1500) := by
    rw [parseTimeWithDate_val_some "01:00" 1 0 d (1440 * d + 1380) (by decide) (by rfl)]
    rw [if_pos (by push_cast; omega)]
    norm_num
    ring
  refine ⟨h1, h2, ?_⟩
  have hpush := @stepRow_push "H" (some d) ⟨[], [], false, none⟩ c9row ⟨"BOF", 2⟩
    (1440 * d + 1380) (1440 * d + 1500)
    (show UNIT_SEQUENCE (jsToUpper c9row.unit) = some ⟨"BOF", 2⟩ from rfl) h1 h2 (by omega)
  rw [hpush]
  simp

/-- Claim C10: unit codes are resolved case-insensitively — when
`UNIT_SEQUENCE[row.unit.toUpperCase()]` hits a table entry, the parse step
never emits a `UNIT` warning for the row, and an accepted operation keeps the
original (non-uppercased) unit string together with the entry's group and
order. -/
theorem claim_c10 (hid : String) (base : Option Int) (st : ParseState)
    (row : ExcelRow) (info : UnitInfo)
    (hu : UNIT_SEQUENCE (jsToUpper row.unit) = some info) :
    (∀ e ∈ (stepRow hid base st row).errors, e ∈ st.errors ∨ e.kind ≠ .UNIT) ∧
    (∀ s e : Int,
      parseTimeWithDate row.dateStr row.startStr base st.lastEnd = some s →
      parseTimeWithDate row.dateStr row.endStr base (some s) = some e →
      ¬e - s < 0 →
      (stepRow hid base st row).tempOps = st.tempOps ++
        [⟨row.unit, info.group, row.seqNum.getD info.order, s, e, e - s, none⟩]) := by
  constructor
  · intro e he
    cases hs : parseTimeWithDate row.dateStr row.startStr base st.lastEnd with
    | none =>
      rw [stepRow_start_err hu hs] at he
      rcases List.mem_append.mp he with h1 | h1
      · exact Or.inl h1
      · right; rw [List.mem_singleton] at h1; rw [h1]; simp
    | some s =>
      cases he2 : parseTimeWithDate row.dateStr row.endStr base (some s) with
      | none =>
        rw [stepRow_end_err hu hs he2] at he
        rcases List.mem_append.mp he with h1 | h1
        · exact Or.inl h1
        · right; rw [List.mem_singleton] at h1; rw [h1]; simp
      | some e2 =>
        by_cases hlt : e2 - s < 0
        · rw [stepRow_time_err hu hs he2 hlt] at he
          rcases List.mem_append.mp he with h1 | h1
          · exact Or.inl h1
          · right; rw [List.mem_singleton] at h1; rw [h1]; simp
        · rw [stepRow_push hu hs he2 hlt] at he
          exact Or.inl he
  · intro s e hs he2 hge
    rw [stepRow_push hu hs he2 hge]

/-- Claim C10 witness: the lower-case unit `"bof1"` resolves to the `BOF1` table
entry and the pushed operation keeps the original string `"bof1"`. -/
theorem claim_c10_witness :
    (stepRow "HB" none ⟨[], [], false, none⟩ c10row).tempOps =
      [] ++ [⟨"bof1", "BOF", 2, 28401600, 28401660, 28401660 - 28401600, none⟩] := by
  exact (claim_c10 "HB" none ⟨[], [], false, none⟩ c10row ⟨"BOF", 2⟩ (by rfl)).2
    28401600 28401660 (by rfl) (by rfl) (by decide)

/-- Claim C4: a heat that reaches the second validation pass (no fatal parse
error) and whose start-time-sorted operations contain a consecutive pair with
`ops[i].startTime < ops[i-1].endTime` is excluded from `validHeats` and a
`TIME` error tagged with its heat id is recorded; conversely, the operations of
every heat in `validHeats` satisfy `op[i].startTime ≥ op[i-1].endTime` for
every consecutive pair. -/
theorem claim_c4 :
    (∀ (today : Int) (rows : List ExcelRow) (vh : List GanttHeat) (errs : List VError)
        (hid : String) (hrows : List ExcelRow),
      validateAndTransform today rows = .ok (vh, errs) →
      (hid, hrows) ∈ groupByHeatId rows →
      (parseHeatRows hid (baseOf today rows) (sortRows hrows)).fatal = false →
      hasOverlapPair
        (sortOps (parseHeatRows hid (baseOf today rows) (sortRows hrows)).tempOps) = true →
      (∃ e ∈ errs, e.heat_id = hid ∧ e.kind = .TIME) ∧ ∀ h ∈ vh, h.Heat_ID ≠ hid) ∧
    (∀ (today : Int) (rows : List ExcelRow) (vh : List GanttHeat) (errs : List VError),
      validateAndTransform today rows = .ok (vh, errs) →
      ∀ h ∈ vh, List.Chain' (fun a b => a.endTime ≤ b.startTime) h.operations) := by
  constructor
  · intro today rows vh errs hid hrows hok hg hfatal hovl
    have hone : overlapErrs hid
        (sortOps (parseHeatRows hid (baseOf today rows) (sortRows hrows)).tempOps) ≠ [] := by
      rw [Ne, overlapErrs_eq_nil_iff]
      simp [hovl]
    have hv : validationErrs hid
        (sortOps (parseHeatRows hid (baseOf today rows) (sortRows hrows)).tempOps) ≠ [] := by
      unfold validationErrs
      intro hc
      exact hone (List.append_eq_nil.mp
        (List.append_eq_nil.mp (List.append_eq_nil.mp hc).1).1).1
    obtain ⟨hsub, hdrop⟩ := heat_rejected hok hg hfatal hv
    obtain ⟨e0, he0⟩ := List.exists_mem_of_ne_nil _ hone
    have he0eq := mem_overlapErrs hid _ e0 he0
    refine ⟨⟨e0, ?_, ?_, ?_⟩, hdrop⟩
    · apply hsub
      unfold validationErrs
      exact List.mem_append_left _ (List.mem_append_left _ (List.mem_append_left _ he0))
    · rw [he0eq]
    · rw [he0eq]
  · intro today rows vh errs hok h hh
    exact (validHeat_ops_props hok h hh).2

/-- Claim C4 witness: the heat `HO` of `c4rows` overlaps after sorting and is
rejected with a `TIME` error while `validHeats` stays empty. -/
theorem claim_c4_witness :
    (∃ e ∈ [(⟨"HO", .TIME, none, none⟩ : VError)], e.heat_id = "HO" ∧ e.kind = .TIME) ∧
    ∀ h ∈ ([] : List GanttHeat), h.Heat_ID ≠ "HO" := by
  exact claim_c4.1 0 c4rows [] [⟨"HO", .TIME, none, none⟩] "HO" c4rows (by rfl)
    (by decide) (by rfl) (by rfl)

/-- Claim C5: a heat reaching the second pass with two operations on distinct
units of the same non-`LF` group is excluded from `validHeats` with a
`ROUTING` error; the duplicate-group rule never fires when every non-`LF`
group has at most one operation (so `LF` multiplicity is exempt), and the
concrete heat `H5` visiting both `LF1` and `LF2` is accepted. -/
theorem claim_c5 :
    (∀ (today : Int) (rows : List ExcelRow) (vh : List GanttHeat) (errs : List VError)
        (hid : String) (hrows : List ExcelRow) (op1 op2 : Operation),
      validateAndTransform today rows = .ok (vh, errs) →
      (hid, hrows) ∈ groupByHeatId rows →
      (parseHeatRows hid (baseOf today rows) (sortRows hrows)).fatal = false →
      op1 ∈ sortOps (parseHeatRows hid (baseOf today rows) (sortRows hrows)).tempOps →
      op2 ∈ sortOps (parseHeatRows hid (baseOf today rows) (sortRows hrows)).tempOps →
      op1.group = op2.group → op1.group ≠ "LF" → op1.unit ≠ op2.unit →
      (∃ e ∈ errs, e.heat_id = hid ∧ e.kind = .ROUTING) ∧ ∀ h ∈ vh, h.Heat_ID ≠ hid) ∧
    (∀ (hid : String) (ops : List Operation),
      (∀ g n, (g, n) ∈ groupCounts ops → g ≠ "LF" → n ≤ 1) →
      dupGroupErrs hid ops = []) ∧
    validateAndTransform 0 c5rows = .ok ([c5heat], []) := by
  refine ⟨?_, ?_, by rfl⟩
  · intro today rows vh errs hid hrows op1 op2 hok hg hfatal h1 h2 hgrp hnlf hunit
    have hne : op1 ≠ op2 := fun hc => hunit (by rw [hc])
    have hm1 : op1 ∈ (sortOps (parseHeatRows hid (baseOf today rows)
        (sortRows hrows)).tempOps).filter (fun op => op.group = op1.group) :=
      List.mem_filter.mpr ⟨h1, by simp⟩
    have hm2 : op2 ∈ (sortOps (parseHeatRows hid (baseOf today rows)
        (sortRows hrows)).tempOps).filter (fun op => op.group = op1.group) :=
      List.mem_filter.mpr ⟨h2, by simp [hgrp.symm]⟩
    have hlen : 2 ≤ keyCount
        (sortOps (parseHeatRows hid (baseOf today rows) (sortRows hrows)).tempOps)
        op1.group :=
      two_mem_two_le_length hm1 hm2 hne
    have hgc : (op1.group, keyCount
        (sortOps (parseHeatRows hid (baseOf today rows) (sortRows hrows)).tempOps)
        op1.group) ∈ groupCounts
          (sortOps (parseHeatRows hid (baseOf today rows) (sortRows hrows)).tempOps) :=
      ((groupCounts_spec _).2 _ _).mpr ⟨⟨op1, h1, rfl⟩, rfl⟩
    have hdup : (⟨hid, .ROUTING, none, none⟩ : VError) ∈ dupGroupErrs hid
        (sortOps (parseHeatRows hid (baseOf today rows) (sortRows hrows)).tempOps) :=
      List.mem_filterMap.mpr ⟨_, hgc, by rw [if_pos ⟨hnlf, by omega⟩]⟩
    have hvmem : (⟨hid, .ROUTING, none, none⟩ : VError) ∈ validationErrs hid
        (sortOps (parseHeatRows hid (baseOf today rows) (sortRows hrows)).tempOps) := by
      unfold validationErrs
      exact List.mem_append_left _
        (List.mem_append_left _ (List.mem_append_right _ hdup))
    obtain ⟨hsub, hdrop⟩ := heat_rejected hok hg hfatal (List.ne_nil_of_mem hvmem)
    exact ⟨⟨_, hsub _ hvmem, rfl, rfl⟩, hdrop⟩
  · intro hid ops hle
    unfold dupGroupErrs
    rw [List.filterMap_eq_nil_iff]
    intro p hp
    obtain ⟨g, n⟩ := p
    by_cases hg : g ≠ "LF" ∧ n > 1
    · exact absurd hg.2 (by have := hle g n hp hg.1; omega)
    · rw [if_neg hg]

/-- Claim C5 witness: the heat `HW` on `BOF1` and `BOF2` (same group `BOF`) is
rejected with a `ROUTING` error and kept out of `validHeats`. -/
theorem claim_c5_witness :
    (∃ e ∈ [(⟨"HW", .ROUTING, none, none⟩ : VError)],
      e.heat_id = "HW" ∧ e.kind = .ROUTING) ∧
    ∀ h ∈ ([] : List GanttHeat), h.Heat_ID ≠ "HW" := by
  exact claim_c5.1 0 c5wrows [] [⟨"HW", .ROUTING, none, none⟩] "HW" c5wrows
    ⟨"BOF1", "BOF", 2, 28401600, 28401660, 60, none⟩
    ⟨"BOF2", "BOF", 2, 28401690, 28401750, 60, none⟩
    (by rfl) (by decide) (by rfl) (by decide) (by decide) (by rfl) (by decide) (by decide)

/-- Claim C6: a heat reaching the second pass that contains an `LF`-group
operation is dropped with a `ROUTING` error unless a `BOF`-group operation is
present and no `LF` operation starts before the end of the first (start-sorted)
`BOF` operation. -/
theorem claim_c6 (today : Int) (rows : List ExcelRow) (vh : List GanttHeat)
    (errs : List VError) (hid : String) (hrows : List ExcelRow)
    (hok : validateAndTransform today rows = .ok (vh, errs))
    (hg : (hid, hrows) ∈ groupByHeatId rows)
    (hfatal : (parseHeatRows hid (baseOf today rows) (sortRows hrows)).fatal = false)
    (hlf : lfOps (sortOps (parseHeatRows hid (baseOf today rows)
      (sortRows hrows)).tempOps) ≠ [])
    (hcond :
      bofOp (sortOps (parseHeatRows hid (baseOf today rows) (sortRows hrows)).tempOps)
          = none ∨
      ∃ bof lf,
        bofOp (sortOps (parseHeatRows hid (baseOf today rows)
          (sortRows hrows)).tempOps) = some bof ∧
        lf ∈ lfOps (sortOps (parseHeatRows hid (baseOf today rows)
          (sortRows hrows)).tempOps) ∧
        lf.startTime < bof.endTime) :
    (∃ e ∈ errs, e.heat_id = hid ∧ e.kind = .ROUTING) ∧
    ∀ h ∈ vh, h.Heat_ID ≠ hid := by
  have hmem : ∃ er, er ∈ validationErrs hid
      (sortOps (parseHeatRows hid (baseOf today rows) (sortRows hrows)).tempOps) ∧
      er.heat_id = hid ∧ er.kind = .ROUTING := by
    rcases hcond with hnone | ⟨bof, lf, hbof, hlfmem, hlt⟩
    · have hmiss : lfMissingErrs hid
          (sortOps (parseHeatRows hid (baseOf today rows) (sortRows hrows)).tempOps) =
          [⟨hid, .ROUTING,
            some (joinComma (((lfOps (sortOps (parseHeatRows hid (baseOf today rows)
              (sortRows hrows)).tempOps))).map (·.unit))), none⟩] := by
        unfold lfMissingErrs
        rw [if_pos ⟨hlf, hnone⟩]
      refine ⟨⟨hid, .ROUTING,
        some (joinComma (((lfOps (sortOps (parseHeatRows hid (baseOf today rows)
          (sortRows hrows)).tempOps))).map (·.unit))), none⟩, ?_, rfl, rfl⟩
      unfold validationErrs
      apply List.mem_append_left
      apply List.mem_append_right
      rw [hmiss]
      exact List.mem_singleton.mpr rfl
    · have hord : (⟨hid, .ROUTING, none, none⟩ : VError) ∈ lfOrderErrs hid
          (sortOps (parseHeatRows hid (baseOf today rows) (sortRows hrows)).tempOps) := by
        simp only [lfOrderErrs, hbof]
        rw [if_pos hlf]
        exact List.mem_filterMap.mpr ⟨lf, hlfmem, by rw [if_pos hlt]⟩
      refine ⟨⟨hid, .ROUTING, none, none⟩, ?_, rfl, rfl⟩
      unfold validationErrs
      exact List.mem_append_right _ hord
  obtain ⟨er, hermem, her1, her2⟩ := hmem
  obtain ⟨hsub, hdrop⟩ := heat_rejected hok hg hfatal (List.ne_nil_of_mem hermem)
  exact ⟨⟨er, hsub er hermem, her1, her2⟩, hdrop⟩

/-- Claim C6 witness: the single-row heat `HL` on `LF1` has no `BOF` operation
and is rejected with a `ROUTING` error. -/
theorem claim_c6_witness :
    (∃ e ∈ [(⟨"HL", .ROUTING, some "LF1", none⟩ : VError)],
      e.heat_id = "HL" ∧ e.kind = .ROUTING) ∧
    ∀ h ∈ ([] : List GanttHeat), h.Heat_ID ≠ "HL" := by
  exact claim_c6 0 c6rows [] [⟨"HL", .ROUTING, some "LF1", none⟩] "HL" c6rows (by rfl)
    (by decide) (by rfl) (by decide) (Or.inl (by rfl))

/-- Claim C7 counterexample: on the spec's three-row `D7090` scenario the
pipeline computes `totalIdleTime = 60` (the sum of the idle gaps `[0, 30, 30]`),
not `90` as the claim states. -/
theorem claim_c7_counterexample :
    validateAndTransform 0 c7rows = .ok ([c7heat.toGanttHeat], []) ∧
    c7heat.toGanttHeat.totalIdleTime = 60 ∧
    c7heat.toGanttHeat.totalIdleTime ≠ 90 := by
  exact ⟨by rfl, by rfl, by decide⟩

/-- Claim C7 as amended: the `D7090` scenario yields exactly one valid heat with
`isComplete = true`, `castingMachine = "TSC1"`, per-operation
`idleTimeMinutes = [0, 30, 30]`, `totalDurationMinutes = 180` and
`totalIdleTime = 60` (the claim's `90` corrected to the sum of the idle
gaps). -/
theorem claim_c7 :
    pipelineSeq 0 c7rows = .ok ([c7heat], []) ∧
    c7heat.Heat_ID = "D7090" ∧
    c7heat.isComplete = true ∧
    c7heat.castingMachine = some "TSC1" ∧
    c7heat.operations.map (fun op => op.idleTimeMinutes) = [some 0, some 30, some 30] ∧
    c7heat.operations.map (fun op => op.Duration_min) = [60, 60, 60] ∧
    c7heat.totalDuration = 180 ∧
    c7heat.totalIdleTime = 60 := by
  exact ⟨by rfl, by rfl, by rfl, by rfl, by rfl, by rfl, by rfl, by rfl⟩

/-- Claim C8 counterexample: in `c8rows` the heat `H2` has no `dateStr` on any of
its rows, yet its operation is resolved against the *whole input's* first row's
date (2024-01-10), not against "today" (2024-05-05) as the claim's per-heat
fallback would require. -/
theorem claim_c8_counterexample :
    validateAndTransform (daysFromCivil 2024 5 5) c8rows =
      .ok ([⟨"H1", "SG", [⟨"BOF1", "BOF", 2, 28414560, 28414620, 60, some 0⟩],
              false, 60, 0⟩,
            ⟨"H2", "SG", [⟨"BOF1", "BOF", 2, 28414560, 28414620, 60, some 0⟩],
              false, 60, 0⟩], []) ∧
    (28414560 : Int) ≠ 1440 * daysFromCivil 2024 5 5 + 480 := by
  exact ⟨by rfl, by decide⟩

/-- Claim C8 as amended: a row's times resolve against the row's own `dateStr`
when it is non-empty — independently of the global base date, and with a fatal
parse failure (no fallback) when that `dateStr` is unparseable — and otherwise
against the global base date, which is the *input's first row's* `dateStr` when
non-empty and today's date otherwise (also when the input is empty). -/
theorem claim_c8 :
    (∀ (ds hm : String) (b b2 p : Option Int), ds ≠ "" →
      parseTimeWithDate ds hm b p = parseTimeWithDate ds hm b2 p) ∧
    (∀ (ds hm : String) (b p : Option Int), ds ≠ "" → jsParseDate ds = none →
      parseTimeWithDate ds hm b p = none) ∧
    (∀ (hm : String) (p : Option Int), parseTimeWithDate "" hm none p = none) ∧
    (∀ (today : Int) (r : ExcelRow) (rows2 : List ExcelRow), r.dateStr = "" →
      baseOf today (r :: rows2) = some today) ∧
    (∀ (today : Int) (r : ExcelRow) (rows2 : List ExcelRow), r.dateStr ≠ "" →
      baseOf today (r :: rows2) = jsParseDate r.dateStr) ∧
    (∀ today : Int, baseOf today [] = some today) := by
  refine ⟨?_, ?_, parseTimeWithDate_invalid_base, ?_, ?_, fun today => rfl⟩
  · intro ds hm b b2 p hds
    rw [parseTimeWithDate_eq ds hm b p, parseTimeWithDate_eq ds hm b2 p,
      if_pos hds, if_pos hds]
  · intro ds hm b p hds hinv
    rw [parseTimeWithDate_eq, if_pos hds, hinv]
    exact parseTimeWithDate_invalid_base hm p
  · intro today r rows2 hds
    unfold baseOf
    simp [hds]
  · intro today r rows2 hds
    unfold baseOf
    simp [hds]

/-- Claim C8 witness: the amended claim instantiated at a dated row (base-date
independence) and at an unparseable date string (fatal, no fallback). -/
theorem claim_c8_witness :
    parseTimeWithDate "2024-01-15" "08:00" (some 0) none =
      parseTimeWithDate "2024-01-15" "08:00" (some 999) none ∧
    parseTimeWithDate "not-a-date" "08:00" (some 0) none = none := by
  exact ⟨claim_c8.1 "2024-01-15" "08:00" (some 0) (some 999) none (by decide),
         claim_c8.2.1 "not-a-date" "08:00" (some 0) none (by decide) (by rfl)⟩

/-- Claim C1: after a full pipeline run (validation plus the spec-modelled
sequencing step), every valid heat carries `castingMachine` equal to the unit
of its last-starting `CASTER` operation (`sequenceInCaster = none` exactly for
heats with no `CASTER` operation), and within every
`(castingMachine, productionDay)` cohort the assigned `sequenceInCaster`
values are a permutation of `1..N` — unique and contiguous. -/
theorem claim_c1 (today : Int) (rows : List ExcelRow) (out : List SeqHeat)
    (errs : List VError) (hok : pipelineSeq today rows = .ok (out, errs)) :
    (∀ sh ∈ out,
      sh.castingMachine = (lastCasterOp sh.toGanttHeat).map (fun c => c.unit) ∧
      (sh.sequenceInCaster = none ↔
        ∀ op ∈ sh.toGanttHeat.operations, op.group ≠ "CASTER") ∧
      (∀ c, lastCasterOp sh.toGanttHeat = some c →
        c ∈ sh.toGanttHeat.operations ∧ c.group = "CASTER" ∧
        ∀ op ∈ sh.toGanttHeat.operations, op.group = "CASTER" →
          op.startTime ≤ c.startTime)) ∧
    (∀ k : String × Int,
      List.Perm
        ((out.filter (fun sh => heatKey sh.toGanttHeat = some k)).map
          (fun sh => sh.sequenceInCaster))
        ((List.range' 1
          ((out.filter (fun sh => heatKey sh.toGanttHeat = some k)).length)).map
          some)) := by
  have hout : ∃ vh, out = assignCasterSequence vh := by
    unfold pipelineSeq at hok
    cases hv : validateAndTransform today rows with
    | error e => rw [hv] at hok; simp [Except.map] at hok
    | ok pr =>
      rw [hv] at hok
      obtain ⟨vh, errs0⟩ := pr
      simp only [Except.map, Except.ok.injEq, Prod.mk.injEq] at hok
      exact ⟨vh, hok.1.symm⟩
  obtain ⟨vh, rfl⟩ := hout
  constructor
  · intro sh hsh
    unfold assignCasterSequence at hsh
    obtain ⟨p, hp, rfl⟩ := List.mem_map.mp hsh
    have htg : (assignOne vh.enum p).toGanttHeat = p.2 := assignOne_toGanttHeat _ _
    rw [htg]
    cases hc : lastCasterOp p.2 with
    | none =>
      refine ⟨by simp [assignOne, hc], ?_, ?_⟩
      · constructor
        · intro _
          exact (lastCasterOp_eq_none_iff p.2).mp hc
        · intro _
          simp [assignOne, hc]
      · intro c hcc
        simp at hcc
    | some c0 =>
      refine ⟨by simp [assignOne, hc], ?_, ?_⟩
      · constructor
        · intro hfalse
          simp [assignOne, hc] at hfalse
        · intro hall
          exfalso
          have := (lastCasterOp_eq_none_iff p.2).mpr hall
          rw [hc] at this
          cases this
      · intro c hcc
        injection hcc with hcc2
        rw [← hcc2]
        exact lastCasterOp_spec p.2 c0 hc
  · intro k
    exact assignCasterSequence_group_perm vh k

/-- Claim C1 witness: on `c1rows` (two heats casting on `TSC1` on the same
production day plus one casterless heat) the sequence numbers of the
`("TSC1", day)` cohort form a permutation of `{1, 2}`. -/
theorem claim_c1_witness :
    List.Perm
      ((c1out.filter (fun sh => heatKey sh.toGanttHeat = some ("TSC1", 19737))).map
        (fun sh => sh.sequenceInCaster))
      ((List.range' 1
        ((c1out.filter
          (fun sh => heatKey sh.toGanttHeat = some ("TSC1", 19737))).length)).map
        some) := by
  exact (claim_c1 0 c1rows c1out [] (by rfl)).2 ("TSC1", 19737)

end Steel
